import Mathlib

/-!
PhishGuard: the URL scoring engine of `src/app.js`.

A shallow embedding of the four engine methods of class `PhishGuard`
(`extractFeatures`, `randomForestClassifier`, `lstmClassifier`, `analyzeURL`).

Conventions of the embedding.

* A JavaScript string is the list of its UTF-16 code units (`JSString`), so that
  `.length`, the regular expressions without the `u` flag, `includes`,
  `startsWith`, `endsWith` and `split` are list functions on code units.
* The services of the host that the methods call and that the repository does
  not contain are the fields of `Platform`: the `URL` constructor (`none` when
  it throws), `String.prototype.toLowerCase`, and the clock read by `new Date()`.
* A feature record is an object whose properties are assigned one by one; a
  property that was never assigned reads `undefined`.  Each property is an
  `Option Nat`, `none` standing for the absent property.
* JavaScript numbers are IEEE doubles.  The arithmetic of the scores is embedded
  twice.  In the exact reading (`randomForestClassifier`, `lstmClassifier`,
  `fusion`, `analyzeURL`) a literal such as `0.7` is the rational `7/10` and no
  operation rounds.  In the double reading (`randomForestClassifierDouble`,
  `lstmClassifierDouble`, `fusionDouble`, `analyzeURLDouble`) a literal is the
  nearest double and every `+`, `-`, `*`, `/` rounds to the nearest double, ties
  to even (`roundDouble`); the additions are made one at a time in the order of
  the source.  The two readings give the same verdict wherever the fused score
  is not within rounding distance of a threshold.  The bands of the fusion stage
  and the difference of two structural scores are stated in the double reading,
  scenario A in both; the last section restates the remaining results in the
  double reading.
  The one place where a non-finite double arises, the quotient
  `numSpecialChars / urlLength`, is embedded by `JSRatio` with its `NaN` and
  `Infinity` cases.
-/

namespace PhishGuard

/-! ## Strings -/

/-- A JavaScript string: its UTF-16 code units. -/
abbrev JSString := List Nat

/-- The UTF-16 code units of a string literal. -/
def utf16 (s : String) : JSString :=
  s.toList.flatMap fun c =>
    if c.toNat < 0x10000 then [c.toNat]
    else [0xD800 + (c.toNat - 0x10000) / 0x400, 0xDC00 + (c.toNat - 0x10000) % 0x400]

/-- The method `s.startsWith(t)`. -/
def startsWith (s t : JSString) : Bool := t.isPrefixOf s

/-- The method `s.endsWith(t)`. -/
def endsWith (s t : JSString) : Bool := t.reverse.isPrefixOf s.reverse

/-- The method `s.includes(t)`. -/
def includes : JSString → JSString → Bool
  | [], t => t.isPrefixOf []
  | c :: s, t => t.isPrefixOf (c :: s) || includes s t

/-- The length of `s.match(/[class]/g) || []` for a one-character class `cls`. -/
def countClass (cls : Nat → Bool) (s : JSString) : Nat := s.countP cls

/-- Worker of `splitLength`: `skip` code units of a separator just found are still to be
passed over. -/
def splitLength.go (sep : JSString) : Nat → JSString → Nat
  | _, [] => 1
  | skip + 1, _ :: s => splitLength.go sep skip s
  | 0, c :: s =>
    if sep.isPrefixOf (c :: s) then 1 + splitLength.go sep (sep.length - 1) s
    else splitLength.go sep 0 s

/-- The value `s.split(sep).length` for a non-empty separator: one more than the number of
occurrences of `sep` found scanning left to right without overlap. -/
def splitLength (s sep : JSString) : Nat := splitLength.go sep 0 s

/-- The class `\d`. -/
def isDigit (c : Nat) : Bool := 48 ≤ c && c ≤ 57

/-- The class `[a-z]`. -/
def isLowerLetter (c : Nat) : Bool := 97 ≤ c && c ≤ 122

/-- The class `[^a-zA-Z0-9.-]`. -/
def isSpecialChar (c : Nat) : Bool :=
  !(isLowerLetter c || (65 ≤ c && c ≤ 90) || isDigit c || c == 46 || c == 45)

/-- What `.` does not match: the line terminators. -/
def isLineTerminator (c : Nat) : Bool := c == 10 || c == 13 || c == 0x2028 || c == 0x2029

/-- Matches `\d+\.` at the head of `s` and returns what follows. -/
def digitsDot (s : JSString) : Option JSString :=
  match s with
  | [] => none
  | c :: _ =>
    if isDigit c then
      match s.dropWhile isDigit with
      | 46 :: r => some r
      | _ => none
    else none

/-- Whether `\d+\.\d+\.\d+\.\d+` matches at the head of `s`. -/
def ipAt (s : JSString) : Bool :=
  match (digitsDot s).bind fun r => (digitsDot r).bind digitsDot with
  | some (c :: _) => isDigit c
  | _ => false

/-- The test `/\d+\.\d+\.\d+\.\d+/.test(s)`: the pattern matches at some position. -/
def testIP : JSString → Bool
  | [] => false
  | c :: s => ipAt (c :: s) || testIP s

/-- Worker of `matchRepetitions`. -/
def matchRepetitions.go : Nat → JSString → List JSString
  | _, [] => []
  | skip + 1, _ :: s => matchRepetitions.go skip s
  | 0, c :: s =>
    if !isLineTerminator c && [c, c].isPrefixOf s then
      (c :: s.takeWhile (· == c)) :: matchRepetitions.go (s.takeWhile (· == c)).length s
    else matchRepetitions.go 0 s

/-- The matches of `/(.)\1{2,}/g`: scanning left to right, a code unit other than a line
terminator followed by at least two copies of itself matches together with all the copies
that follow (the quantifier is greedy), and the scan resumes after the match.  The empty
list stands for the `null` that `match` returns when nothing matches. -/
def matchRepetitions (s : JSString) : List JSString := matchRepetitions.go 0 s

/-- Worker of `matchLetterRuns`. -/
def matchLetterRuns.go : Nat → JSString → List JSString
  | _, [] => []
  | skip + 1, _ :: s => matchLetterRuns.go skip s
  | 0, c :: s =>
    if 10 ≤ ((c :: s).takeWhile isLowerLetter).length then
      (c :: s).takeWhile isLowerLetter ::
        matchLetterRuns.go (((c :: s).takeWhile isLowerLetter).length - 1) s
    else matchLetterRuns.go 0 s

/-- The matches of `/[a-z]{10,}/g`: scanning left to right, the longest run of lower-case
letters at a position matches when it has at least ten letters, and the scan resumes after
it.  The empty list stands for `null`. -/
def matchLetterRuns (s : JSString) : List JSString := matchLetterRuns.go 0 s

/-! ## The host -/

/-- The properties of a `URL` object that the engine reads. -/
structure URLObj where
  protocol : JSString
  hostname : JSString
  port : JSString
  pathname : JSString
deriving DecidableEq, Repr

/-- The services of the host. -/
structure Platform where
  /-- The constructor `new URL(s)`; `none` when it throws. -/
  URL : JSString → Option URLObj
  /-- The method `s.toLowerCase()`. -/
  toLowerCase : JSString → JSString
  /-- The value of `new Date().toISOString()` at the call. -/
  now : JSString

/-! ## Data model -/

/-- The feature record built by `extractFeatures`. -/
structure Features where
  urlLength : Option Nat
  domainLength : Option Nat
  pathLength : Option Nat
  numDots : Option Nat
  numHyphens : Option Nat
  numUnderscores : Option Nat
  numDigits : Option Nat
  numSpecialChars : Option Nat
  hasHTTPS : Option Nat
  hasIP : Option Nat
  hasPort : Option Nat
  hasSubdomain : Option Nat
  hasAtSymbol : Option Nat
  hasDoubleSlash : Option Nat
  hasPhishingKeyword : Option Nat
  hasBrandName : Option Nat
  invalidURL : Option Nat
deriving DecidableEq, Repr

/-- The three verdicts. -/
inductive Verdict where
  | safe
  | suspicious
  | phishing
deriving DecidableEq, Repr

/-- The object returned by `analyzeURL`. -/
structure ScanResult where
  url : JSString
  verdict : Verdict
  confidence : Int
  riskScore : Int
  timestamp : JSString
  features : Features

/-! ## Numbers -/

/-- The comparison `x > n` of a property with a number literal; `undefined > n` is false. -/
def gt (x : Option Nat) (n : Nat) : Bool :=
  match x with
  | some v => decide (n < v)
  | none => false

/-- Truthiness of a property: `undefined` and `0` are falsy. -/
def truthy (x : Option Nat) : Bool :=
  match x with
  | some v => v != 0
  | none => false

/-- The value of a quotient of two properties. -/
inductive JSRatio where
  | nan
  | infinity
  | finite (q : ℚ)

/-- The quotient `a / b` of two properties: `NaN` when one of them is `undefined` and for
`0 / 0`, `Infinity` for a positive numerator over `0`. -/
def jsDiv (a b : Option Nat) : JSRatio :=
  match a, b with
  | some n, some d =>
    if d = 0 then (if n = 0 then JSRatio.nan else JSRatio.infinity)
    else JSRatio.finite ((n : ℚ) / (d : ℚ))
  | _, _ => JSRatio.nan

/-- The comparison `r > k` with a number literal: false for `NaN`, true for `Infinity`. -/
def JSRatio.gt (r : JSRatio) (k : ℚ) : Bool :=
  match r with
  | JSRatio.nan => false
  | JSRatio.infinity => true
  | JSRatio.finite q => decide (k < q)

/-- The function `Math.round`: the nearest integer, a tie going up. -/
def jsRound (x : ℚ) : Int := ⌊x + 1 / 2⌋

/-- The statement `if (c) score += k;` as a function of the running score. -/
def addIf (c : Bool) (k : ℚ) (score : ℚ) : ℚ := if c then score + k else score

/-! ## The engine -/

/-- The list `phishingKeywords` of `extractFeatures`. -/
def phishingKeywords : List JSString :=
  [utf16 "login", utf16 "signin", utf16 "account", utf16 "verify", utf16 "secure",
   utf16 "update", utf16 "confirm", utf16 "banking"]

/-- The list `brands` of `extractFeatures`. -/
def brands : List JSString :=
  [utf16 "paypal", utf16 "amazon", utf16 "microsoft", utf16 "apple", utf16 "google",
   utf16 "facebook"]

/-- The list `homographs` of `lstmClassifier`, with the characters the source file holds. -/
def homographs : List JSString :=
  [[0x2014, 0xC4, 0x61, 0x79, 0x70, 0x61, 0x6C],
   [0x67, 0x2013, 0xE6, 0x2013, 0xE6, 0x67, 0x6C, 0x65],
   [0x2013, 0x221E, 0x6D, 0x61, 0x7A, 0x6F, 0x6E],
   [0x6D, 0x69, 0x2014, 0xC5, 0x72, 0x6F, 0x73, 0x6F, 0x66, 0x74]]

/-- The list `suspiciousTLDs` of `lstmClassifier`. -/
def suspiciousTLDs : List JSString :=
  [utf16 ".tk", utf16 ".ml", utf16 ".ga", utf16 ".cf", utf16 ".gq", utf16 ".xyz", utf16 ".top"]

/-- The list `shorteners` of `lstmClassifier`. -/
def shorteners : List JSString :=
  [utf16 "bit.ly", utf16 "tinyurl", utf16 "goo.gl", utf16 "ow.ly", utf16 "t.co"]

/-- The list `sequential` of `lstmClassifier`. -/
def sequential : List JSString := [utf16 "123", utf16 "abc", utf16 "000", utf16 "111"]

/-- The expression `c ? 1 : 0` stored into a property. -/
def flag (c : Bool) : Option Nat := some (if c then 1 else 0)

/-- The record `{invalidURL: 1}` left by the `catch` branch of `extractFeatures`. -/
def invalidRecord : Features :=
  { urlLength := none, domainLength := none, pathLength := none, numDots := none,
    numHyphens := none, numUnderscores := none, numDigits := none, numSpecialChars := none,
    hasHTTPS := none, hasIP := none, hasPort := none, hasSubdomain := none,
    hasAtSymbol := none, hasDoubleSlash := none, hasPhishingKeyword := none,
    hasBrandName := none, invalidURL := some 1 }

/-- The argument handed to the `URL` constructor:
`url.startsWith('http') ? url : 'https://' + url`. -/
def withScheme (url : JSString) : JSString :=
  if startsWith url (utf16 "http") then url else utf16 "https://" ++ url

/-- The method `extractFeatures`.  The statements of the `try` block after the constructor
are property reads, `match`, `test`, `split`, `includes` and `some` on strings, none of
which throws, so the `catch` branch is entered exactly when the constructor throws, before
any property has been assigned. -/
def extractFeatures (P : Platform) (url : JSString) : Features :=
  match P.URL (withScheme url) with
  | some urlObj =>
    { urlLength := some url.length
      domainLength := some urlObj.hostname.length
      pathLength := some urlObj.pathname.length
      numDots := some (countClass (· == 46) url)
      numHyphens := some (countClass (· == 45) url)
      numUnderscores := some (countClass (· == 95) url)
      numDigits := some (countClass isDigit url)
      numSpecialChars := some (countClass isSpecialChar url)
      hasHTTPS := flag (urlObj.protocol == utf16 "https:")
      hasIP := flag (testIP urlObj.hostname)
      hasPort := flag (!urlObj.port.isEmpty)
      hasSubdomain := flag (decide (2 < splitLength urlObj.hostname (utf16 ".")))
      hasAtSymbol := flag (includes url (utf16 "@"))
      hasDoubleSlash := flag (decide (2 < splitLength url (utf16 "//")))
      hasPhishingKeyword := flag (phishingKeywords.any fun k => includes (P.toLowerCase url) k)
      hasBrandName := flag (brands.any fun b => includes (P.toLowerCase urlObj.hostname) b)
      invalidURL := none }
  | none => invalidRecord

/-- Tree 1, URL length check. -/
def tree1 (f : Features) : ℚ :=
  if gt f.urlLength 75 then 0.7 else if gt f.urlLength 50 then 0.4 else 0.1

/-- Tree 2, security features. -/
def tree2 (f : Features) : ℚ :=
  addIf (truthy f.hasPort) 0.6 (addIf (truthy f.hasIP) 0.8 (addIf (!truthy f.hasHTTPS) 0.5 0))

/-- Tree 3, suspicious patterns. -/
def tree3 (f : Features) : ℚ :=
  addIf (gt f.numHyphens 3) 0.6
    (addIf (truthy f.hasDoubleSlash) 0.7 (addIf (truthy f.hasAtSymbol) 0.9 0))

/-- The constant `specialRatio` of tree 4. -/
def specialRatio (f : Features) : JSRatio := jsDiv f.numSpecialChars f.urlLength

/-- Tree 4, character analysis. -/
def tree4 (f : Features) : ℚ :=
  if (specialRatio f).gt 0.15 then 0.8 else if (specialRatio f).gt 0.08 then 0.5 else 0

/-- Tree 5, domain analysis. -/
def tree5 (f : Features) : ℚ :=
  addIf (truthy f.hasSubdomain && truthy f.hasBrandName) 0.9
    (addIf (gt f.numDots 4) 0.6 (addIf (gt f.domainLength 40) 0.7 0))

/-- Tree 6, phishing indicators. -/
def tree6 (f : Features) : ℚ :=
  if truthy f.hasPhishingKeyword then (if !truthy f.hasHTTPS then 0.9 else 0.4) else 0

/-- Tree 7, invalid URL check. -/
def tree7 (f : Features) : ℚ := addIf (truthy f.invalidURL) 1.0 0

/-- The method `randomForestClassifier`: `score` starts at 0 and receives the additions of
the seven trees in turn, `count` is incremented once after each tree, and the result is
`score / count`. -/
def randomForestClassifier (f : Features) : ℚ :=
  (0 + tree1 f + tree2 f + tree3 f + tree4 f + tree5 f + tree6 f + tree7 f) /
    (0 + 1 + 1 + 1 + 1 + 1 + 1 + 1)

/-- The method `lstmClassifier`. -/
def lstmClassifier (P : Platform) (url : JSString) : ℚ :=
  let score : ℚ := 0
  let sequence := P.toLowerCase url
  -- Pattern 1: repetitive characters
  let repetitions := matchRepetitions sequence
  let score := addIf (decide (2 < repetitions.length)) 0.3 score
  -- Pattern 2: random string detection
  let matchList := matchLetterRuns sequence
  let score := matchList.foldl
    (fun score m => addIf (decide ((0.7 : ℚ) < (m.dedup.length : ℚ) / (m.length : ℚ))) 0.2 score)
    score
  -- Pattern 3: homograph attacks
  let score := addIf (homographs.any fun h => includes sequence h) 0.9 score
  -- Pattern 4: suspicious TLDs
  let score := addIf (suspiciousTLDs.any fun tld => endsWith sequence tld) 0.6 score
  -- Pattern 5: URL shorteners
  let score := addIf (shorteners.any fun s => includes sequence s) 0.4 score
  -- Pattern 6: obfuscation techniques
  let score := addIf (includes sequence (utf16 "%20") || includes sequence (utf16 "%2f")) 0.3 score
  let score := addIf (decide (3 < countClass (· == 37) sequence)) 0.5 score
  -- Pattern 7: sequential patterns
  let score := sequential.foldl (fun score seq => addIf (includes sequence seq) 0.1 score) score
  min 1.0 score

/-- The fusion stage of `analyzeURL`: from the two scores to `verdict`, `confidence` and
`riskScore`. -/
def fusion (rfScore lstmScore : ℚ) : Verdict × Int × Int :=
  let finalScore := rfScore * 0.6 + lstmScore * 0.4
  let vc : Verdict × Int :=
    if finalScore ≥ 0.7 then (Verdict.phishing, min 95 (jsRound (finalScore * 100)))
    else if finalScore ≥ 0.4 then (Verdict.suspicious, jsRound (finalScore * 100))
    else (Verdict.safe, min 95 (jsRound ((1 - finalScore) * 100)))
  (vc.1, vc.2, jsRound (finalScore * 100))

/-- The method `analyzeURL`. -/
def analyzeURL (P : Platform) (url : JSString) : ScanResult :=
  let features := extractFeatures P url
  let rfScore := randomForestClassifier features
  let lstmScore := lstmClassifier P url
  { url := url
    verdict := (fusion rfScore lstmScore).1
    confidence := (fusion rfScore lstmScore).2.1
    riskScore := (fusion rfScore lstmScore).2.2
    timestamp := P.now
    features := features }

/-! ## The host on the scenario inputs -/

/-- The ASCII part of `toLowerCase`: `A`-`Z` go to `a`-`z`, every other code unit stays. -/
def asciiLower (s : JSString) : JSString :=
  s.map fun c => if 65 ≤ c && c ≤ 90 then c + 32 else c

/-- The input of scenario A. -/
def scenarioA : JSString := utf16 "http://paypal-secure-login.tk/verify?id=123"

/-- The input of scenario B. -/
def scenarioB : JSString := utf16 "https://www.google.com"

/-- The input of scenario C. -/
def scenarioC : JSString := utf16 "not a url"

/-- The input of scenario D. -/
def scenarioD : JSString := utf16 "http://192.168.1.5/account/login"

/-- The `URL` object of scenario A. -/
def urlObjA : URLObj :=
  { protocol := utf16 "http:", hostname := utf16 "paypal-secure-login.tk", port := [],
    pathname := utf16 "/verify" }

/-- The `URL` object of scenario B. -/
def urlObjB : URLObj :=
  { protocol := utf16 "https:", hostname := utf16 "www.google.com", port := [],
    pathname := utf16 "/" }

/-- The `URL` object of scenario D. -/
def urlObjD : URLObj :=
  { protocol := utf16 "http:", hostname := utf16 "192.168.1.5", port := [],
    pathname := utf16 "/account/login" }

/-- The results of the `URL` constructor (WHATWG URL Standard) on the inputs of the
scenarios.  The constructor throws on `https://not a url`, whose host holds a space, and is
not tabulated elsewhere. -/
def scenarioURL (s : JSString) : Option URLObj :=
  if s = scenarioA then some urlObjA
  else if s = scenarioB then some urlObjB
  else if s = scenarioD then some urlObjD
  else none

/-- A host that agrees with a browser on the scenario inputs. -/
def scenarioHost : Platform :=
  { URL := scenarioURL, toLowerCase := asciiLower, now := utf16 "2026-01-01T00:00:00.000Z" }

/-! ## Shapes of a feature record -/

/-- All sixteen structural and lexical properties are present and `invalidURL` is absent. -/
def Features.complete (f : Features) : Bool :=
  f.urlLength.isSome && f.domainLength.isSome && f.pathLength.isSome && f.numDots.isSome &&
  f.numHyphens.isSome && f.numUnderscores.isSome && f.numDigits.isSome &&
  f.numSpecialChars.isSome && f.hasHTTPS.isSome && f.hasIP.isSome && f.hasPort.isSome &&
  f.hasSubdomain.isSome && f.hasAtSymbol.isSome && f.hasDoubleSlash.isSome &&
  f.hasPhishingKeyword.isSome && f.hasBrandName.isSome && f.invalidURL.isNone

/-- The property `invalidURL` is 1 and no other property is present. -/
def Features.onlyInvalid (f : Features) : Bool :=
  f.urlLength.isNone && f.domainLength.isNone && f.pathLength.isNone && f.numDots.isNone &&
  f.numHyphens.isNone && f.numUnderscores.isNone && f.numDigits.isNone &&
  f.numSpecialChars.isNone && f.hasHTTPS.isNone && f.hasIP.isNone && f.hasPort.isNone &&
  f.hasSubdomain.isNone && f.hasAtSymbol.isNone && f.hasDoubleSlash.isNone &&
  f.hasPhishingKeyword.isNone && f.hasBrandName.isNone && f.invalidURL == some 1

/-- The feature record of scenario A. -/
def featuresA : Features :=
  { urlLength := some 43, domainLength := some 22, pathLength := some 7, numDots := some 1,
    numHyphens := some 2, numUnderscores := some 0, numDigits := some 3,
    numSpecialChars := some 6, hasHTTPS := some 0, hasIP := some 0, hasPort := some 0,
    hasSubdomain := some 0, hasAtSymbol := some 0, hasDoubleSlash := some 0,
    hasPhishingKeyword := some 1, hasBrandName := some 1, invalidURL := none }

/-- The feature record of scenario B. -/
def featuresB : Features :=
  { urlLength := some 22, domainLength := some 14, pathLength := some 1, numDots := some 2,
    numHyphens := some 0, numUnderscores := some 0, numDigits := some 0,
    numSpecialChars := some 3, hasHTTPS := some 1, hasIP := some 0, hasPort := some 0,
    hasSubdomain := some 1, hasAtSymbol := some 0, hasDoubleSlash := some 0,
    hasPhishingKeyword := some 0, hasBrandName := some 1, invalidURL := none }

/-- The feature record of scenario D. -/
def featuresD : Features :=
  { urlLength := some 32, domainLength := some 11, pathLength := some 14, numDots := some 3,
    numHyphens := some 0, numUnderscores := some 0, numDigits := some 8,
    numSpecialChars := some 5, hasHTTPS := some 0, hasIP := some 1, hasPort := some 0,
    hasSubdomain := some 1, hasAtSymbol := some 0, hasDoubleSlash := some 0,
    hasPhishingKeyword := some 1, hasBrandName := some 0, invalidURL := none }

/-- A record in which every rule of trees 1 to 6 fires. -/
def allRulesRecord : Features :=
  { urlLength := some 80, domainLength := some 41, pathLength := some 1, numDots := some 5,
    numHyphens := some 4, numUnderscores := some 0, numDigits := some 4,
    numSpecialChars := some 16, hasHTTPS := some 0, hasIP := some 1, hasPort := some 1,
    hasSubdomain := some 1, hasAtSymbol := some 1, hasDoubleSlash := some 1,
    hasPhishingKeyword := some 1, hasBrandName := some 1, invalidURL := none }

/-! ## Double arithmetic -/

/-- Worker of `floorLog2`, by halving; `fuel` bounds the number of halvings. -/
def floorLog2.go : Nat → Nat → Nat
  | 0, _ => 0
  | fuel + 1, n => if n ≤ 1 then 0 else 1 + floorLog2.go fuel (n / 2)

/-- The position of the leading bit of a positive number: `2 ^ floorLog2 n ≤ n` and
`n < 2 ^ (floorLog2 n + 1)`. -/
def floorLog2 (n : Nat) : Nat := floorLog2.go n n

/-- The integer nearest to `N / D`, a tie going to the even one. -/
def roundQuotient (N D : Nat) : Nat :=
  if 2 * (N % D) < D then N / D
  else if D < 2 * (N % D) then N / D + 1
  else if (N / D) % 2 = 0 then N / D
  else N / D + 1

/-- The rational `m * 2 ^ (-t)`. -/
def scaleBy (m : Nat) (t : Int) : ℚ :=
  ((m * 2 ^ (-t).toNat : Nat) : ℚ) / ((2 ^ t.toNat : Nat) : ℚ)

/-- Worker of `roundDouble`: the positive rational `n / d` rounded to 53 significant bits,
a tie going to the even significand.  The shift `s` places `n / d * 2 ^ s` between `2 ^ 52`
and `2 ^ 54`; when it is `2 ^ 53` or more the quotient is halved once more; the quotient is
then rounded to an integer significand and scaled back. -/
def roundPos (n d : Nat) : ℚ :=
  let s : Int := 53 + (floorLog2 d : Int) - (floorLog2 n : Int)
  let N : Nat := n * 2 ^ s.toNat
  let D : Nat := d * 2 ^ (-s).toNat
  if 2 ^ 53 * D ≤ N then scaleBy (roundQuotient N (2 * D)) (s - 1)
  else scaleBy (roundQuotient N D) s

/-- The double nearest to the real number `q` (round to nearest, ties to even), as a
rational.  The exponent is not bounded: the function is the IEEE 754 rounding wherever the
result is 0 or a normal double, which covers every value the engine computes (a score is 0
or lies between `0.1 / 7` and the length of the input). -/
def roundDouble (q : ℚ) : ℚ :=
  if q = 0 then 0
  else if 0 < q then roundPos q.num.natAbs q.den
  else -roundPos q.num.natAbs q.den

/-- The value of a decimal literal of the source, such as `0.7`. -/
def lit (q : ℚ) : ℚ := roundDouble q

/-- The operator `+` on doubles. -/
def fadd (a b : ℚ) : ℚ := roundDouble (a + b)

/-- The operator `-` on doubles. -/
def fsub (a b : ℚ) : ℚ := roundDouble (a - b)

/-- The operator `*` on doubles. -/
def fmul (a b : ℚ) : ℚ := roundDouble (a * b)

/-- The operator `/` on doubles, for a divisor other than 0. -/
def fdiv (a b : ℚ) : ℚ := roundDouble (a / b)

/-- The statement `if (c) score += k;` on doubles. -/
def addIfDouble (c : Bool) (k : ℚ) (score : ℚ) : ℚ := if c then fadd score k else score

/-- The quotient `a / b` of two properties on doubles. -/
def jsDivDouble (a b : Option Nat) : JSRatio :=
  match a, b with
  | some n, some d =>
    if d = 0 then (if n = 0 then JSRatio.nan else JSRatio.infinity)
    else JSRatio.finite (fdiv (n : ℚ) (d : ℚ))
  | _, _ => JSRatio.nan

/-! ## The engine in double arithmetic -/

/-- The amount that tree 1 adds. -/
def tree1Double (f : Features) : ℚ :=
  if gt f.urlLength 75 then lit 0.7 else if gt f.urlLength 50 then lit 0.4 else lit 0.1

/-- The branch that tree 4 takes: 2 for `specialRatio > 0.15`, 1 for `specialRatio > 0.08`,
0 when it adds nothing. -/
def tree4Branch (f : Features) : Fin 3 :=
  if (jsDivDouble f.numSpecialChars f.urlLength).gt (lit 0.15) then 2
  else if (jsDivDouble f.numSpecialChars f.urlLength).gt (lit 0.08) then 1
  else 0

/-- The method `randomForestClassifier` on doubles: the additions to `score` are made one
at a time in the order of the source, each rounded, and `count` is 7 at the end. -/
def randomForestClassifierDouble (f : Features) : ℚ :=
  let score : ℚ := 0
  -- Tree 1: URL length check
  let score := fadd score (tree1Double f)
  -- Tree 2: security features
  let score := addIfDouble (!truthy f.hasHTTPS) (lit 0.5) score
  let score := addIfDouble (truthy f.hasIP) (lit 0.8) score
  let score := addIfDouble (truthy f.hasPort) (lit 0.6) score
  -- Tree 3: suspicious patterns
  let score := addIfDouble (truthy f.hasAtSymbol) (lit 0.9) score
  let score := addIfDouble (truthy f.hasDoubleSlash) (lit 0.7) score
  let score := addIfDouble (gt f.numHyphens 3) (lit 0.6) score
  -- Tree 4: character analysis
  let score :=
    if tree4Branch f = 2 then fadd score (lit 0.8)
    else if tree4Branch f = 1 then fadd score (lit 0.5)
    else score
  -- Tree 5: domain analysis
  let score := addIfDouble (gt f.domainLength 40) (lit 0.7) score
  let score := addIfDouble (gt f.numDots 4) (lit 0.6) score
  let score := addIfDouble (truthy f.hasSubdomain && truthy f.hasBrandName) (lit 0.9) score
  -- Tree 6: phishing indicators
  let score :=
    if truthy f.hasPhishingKeyword then
      (if !truthy f.hasHTTPS then fadd score (lit 0.9) else fadd score (lit 0.4))
    else score
  -- Tree 7: invalid URL check
  let score := addIfDouble (truthy f.invalidURL) (lit 1.0) score
  fdiv score 7

/-- The method `lstmClassifier` on doubles. -/
def lstmClassifierDouble (P : Platform) (url : JSString) : ℚ :=
  let score : ℚ := 0
  let sequence := P.toLowerCase url
  let repetitions := matchRepetitions sequence
  let score := addIfDouble (decide (2 < repetitions.length)) (lit 0.3) score
  let matchList := matchLetterRuns sequence
  let score := matchList.foldl
    (fun score m =>
      addIfDouble (decide (lit 0.7 < fdiv (m.dedup.length : ℚ) (m.length : ℚ))) (lit 0.2) score)
    score
  let score := addIfDouble (homographs.any fun h => includes sequence h) (lit 0.9) score
  let score := addIfDouble (suspiciousTLDs.any fun tld => endsWith sequence tld) (lit 0.6) score
  let score := addIfDouble (shorteners.any fun s => includes sequence s) (lit 0.4) score
  let score :=
    addIfDouble (includes sequence (utf16 "%20") || includes sequence (utf16 "%2f")) (lit 0.3)
      score
  let score := addIfDouble (decide (3 < countClass (· == 37) sequence)) (lit 0.5) score
  let score :=
    sequential.foldl (fun score seq => addIfDouble (includes sequence seq) (lit 0.1) score) score
  min (lit 1.0) score

/-- The constant `finalScore` of `analyzeURL` on doubles:
`(rfScore * 0.6) + (lstmScore * 0.4)`. -/
def finalScoreDouble (rfScore lstmScore : ℚ) : ℚ :=
  fadd (fmul rfScore (lit 0.6)) (fmul lstmScore (lit 0.4))

/-- The fusion stage of `analyzeURL` on doubles. -/
def fusionDouble (rfScore lstmScore : ℚ) : Verdict × Int × Int :=
  let finalScore := finalScoreDouble rfScore lstmScore
  let vc : Verdict × Int :=
    if finalScore ≥ lit 0.7 then (Verdict.phishing, min 95 (jsRound (fmul finalScore 100)))
    else if finalScore ≥ lit 0.4 then (Verdict.suspicious, jsRound (fmul finalScore 100))
    else (Verdict.safe, min 95 (jsRound (fmul (fsub 1 finalScore) 100)))
  (vc.1, vc.2, jsRound (fmul finalScore 100))

/-- The method `analyzeURL` on doubles. -/
def analyzeURLDouble (P : Platform) (url : JSString) : ScanResult :=
  let features := extractFeatures P url
  let rfScore := randomForestClassifierDouble features
  let lstmScore := lstmClassifierDouble P url
  { url := url
    verdict := (fusionDouble rfScore lstmScore).1
    confidence := (fusionDouble rfScore lstmScore).2.1
    riskScore := (fusionDouble rfScore lstmScore).2.2
    timestamp := P.now
    features := features }

/-- The additions of trees 2 to 7 in the order of the source, each with its condition; `b`
is the branch of tree 4. -/
def ruleStepsWith (b : Fin 3) (f : Features) : List (Bool × ℚ) :=
  [(!truthy f.hasHTTPS, lit 0.5), (truthy f.hasIP, lit 0.8), (truthy f.hasPort, lit 0.6),
   (truthy f.hasAtSymbol, lit 0.9), (truthy f.hasDoubleSlash, lit 0.7),
   (gt f.numHyphens 3, lit 0.6),
   (decide (b = 2), lit 0.8), (decide (b = 1), lit 0.5),
   (gt f.domainLength 40, lit 0.7), (gt f.numDots 4, lit 0.6),
   (truthy f.hasSubdomain && truthy f.hasBrandName, lit 0.9),
   (truthy f.hasPhishingKeyword && !truthy f.hasHTTPS, lit 0.9),
   (truthy f.hasPhishingKeyword && !(!truthy f.hasHTTPS), lit 0.4),
   (truthy f.invalidURL, lit 1.0)]

/-- The running score after a list of conditional additions. -/
def accumulate (steps : List (Bool × ℚ)) (score : ℚ) : ℚ :=
  steps.foldl (fun score ck => addIfDouble ck.1 ck.2 score) score

/-- The sum of the amounts whose condition holds, without rounding. -/
def exactSum (steps : List (Bool × ℚ)) : ℚ :=
  (steps.map fun ck => if ck.1 then ck.2 else 0).sum

/-- A record of a 75-character URL such as `https://example.com/?` followed by 54 letters. -/
def length75Record : Features :=
  { urlLength := some 75, domainLength := some 11, pathLength := some 1, numDots := some 1,
    numHyphens := some 0, numUnderscores := some 0, numDigits := some 0,
    numSpecialChars := some 5, hasHTTPS := some 1, hasIP := some 0, hasPort := some 0,
    hasSubdomain := some 0, hasAtSymbol := some 0, hasDoubleSlash := some 0,
    hasPhishingKeyword := some 0, hasBrandName := some 0, invalidURL := none }

/-- The record of the same URL with one more letter in its query. -/
def length76Record : Features := { length75Record with urlLength := some 76 }

/-- A 75-character URL: `https://example.com/?` followed by 54 times the letter `a`. -/
def length75URL : JSString := utf16 "https://example.com/?" ++ List.replicate 54 97

/-- The same URL with one more `a`: 76 characters. -/
def length76URL : JSString := utf16 "https://example.com/?" ++ List.replicate 55 97

/-- The `URL` object of both: the query is not part of `pathname`. -/
def urlObjExample : URLObj :=
  { protocol := utf16 "https:", hostname := utf16 "example.com", port := [],
    pathname := utf16 "/" }

/-! ## Arithmetic of the running score and of `Math.round` -/

theorem addIf_true (k score : ℚ) : addIf true k score = score + k := rfl

theorem addIf_false (k score : ℚ) : addIf false k score = score := rfl

theorem addIf_pos {c : Bool} (k score : ℚ) (h : c = true) : addIf c k score = score + k := by
  subst h; rfl

theorem addIf_neg {c : Bool} (k score : ℚ) (h : c = false) : addIf c k score = score := by
  subst h; rfl

theorem addIf_nonneg (c : Bool) {k score : ℚ} (hk : 0 ≤ k) (hs : 0 ≤ score) :
    0 ≤ addIf c k score := by
  cases c
  · simpa [addIf] using hs
  · simpa [addIf] using add_nonneg hs hk

theorem jsRound_mono {x y : ℚ} (h : x ≤ y) : jsRound x ≤ jsRound y :=
  Int.floor_mono (by linarith)

theorem jsRound_intCast (n : Int) : jsRound (n : ℚ) = n := by
  unfold jsRound
  rw [Int.floor_eq_iff]
  constructor <;> linarith

theorem jsRound_nonneg {x : ℚ} (h : 0 ≤ x) : 0 ≤ jsRound x := by
  have := jsRound_mono h
  have h0 : jsRound ((0 : Int) : ℚ) = 0 := jsRound_intCast 0
  simp only [Int.cast_zero] at h0
  omega

theorem jsRound_le_of_le {x : ℚ} {n : Int} (h : x ≤ (n : ℚ)) : jsRound x ≤ n := by
  have := jsRound_mono h
  rwa [jsRound_intCast] at this

theorem jsRound_ge_of_ge {x : ℚ} {n : Int} (h : (n : ℚ) ≤ x) : n ≤ jsRound x := by
  have := jsRound_mono h
  rwa [jsRound_intCast] at this

theorem jsRound_eq {x : ℚ} {n : Int} (h1 : (n : ℚ) - 1 / 2 ≤ x) (h2 : x < (n : ℚ) + 1 / 2) :
    jsRound x = n := by
  unfold jsRound
  rw [Int.floor_eq_iff]
  constructor <;> linarith

/-! ## Signs and ranges of the two scores -/

theorem tree1_nonneg (f : Features) : 0 ≤ tree1 f := by
  unfold tree1
  split_ifs <;> norm_num

theorem tree2_nonneg (f : Features) : 0 ≤ tree2 f := by
  unfold tree2
  exact addIf_nonneg _ (by norm_num) (addIf_nonneg _ (by norm_num)
    (addIf_nonneg _ (by norm_num) le_rfl))

theorem tree3_nonneg (f : Features) : 0 ≤ tree3 f := by
  unfold tree3
  exact addIf_nonneg _ (by norm_num) (addIf_nonneg _ (by norm_num)
    (addIf_nonneg _ (by norm_num) le_rfl))

theorem tree4_nonneg (f : Features) : 0 ≤ tree4 f := by
  unfold tree4
  split_ifs <;> norm_num

theorem tree5_nonneg (f : Features) : 0 ≤ tree5 f := by
  unfold tree5
  exact addIf_nonneg _ (by norm_num) (addIf_nonneg _ (by norm_num)
    (addIf_nonneg _ (by norm_num) le_rfl))

theorem tree6_nonneg (f : Features) : 0 ≤ tree6 f := by
  unfold tree6
  split_ifs <;> norm_num

theorem tree7_nonneg (f : Features) : 0 ≤ tree7 f := by
  unfold tree7
  exact addIf_nonneg _ (by norm_num) le_rfl

theorem randomForestClassifier_nonneg (f : Features) : 0 ≤ randomForestClassifier f := by
  unfold randomForestClassifier
  have h1 := tree1_nonneg f
  have h2 := tree2_nonneg f
  have h3 := tree3_nonneg f
  have h4 := tree4_nonneg f
  have h5 := tree5_nonneg f
  have h6 := tree6_nonneg f
  have h7 := tree7_nonneg f
  apply div_nonneg
  · linarith
  · norm_num

theorem foldl_addIf_nonneg {α : Type} (c : α → Bool) {k : ℚ} (hk : 0 ≤ k) (l : List α) :
    ∀ score : ℚ, 0 ≤ score → 0 ≤ l.foldl (fun score a => addIf (c a) k score) score := by
  induction l with
  | nil => intro score hs; simpa using hs
  | cons a l ih =>
    intro score hs
    simp only [List.foldl_cons]
    exact ih _ (addIf_nonneg _ hk hs)

theorem lstmClassifier_nonneg (P : Platform) (url : JSString) : 0 ≤ lstmClassifier P url := by
  unfold lstmClassifier
  simp only []
  apply le_min (by norm_num)
  apply foldl_addIf_nonneg _ (by norm_num)
  apply addIf_nonneg _ (by norm_num)
  apply addIf_nonneg _ (by norm_num)
  apply addIf_nonneg _ (by norm_num)
  apply addIf_nonneg _ (by norm_num)
  apply addIf_nonneg _ (by norm_num)
  apply foldl_addIf_nonneg
    (fun m : JSString => decide ((0.7 : ℚ) < (m.dedup.length : ℚ) / (m.length : ℚ)))
    (by norm_num)
  exact addIf_nonneg _ (by norm_num) le_rfl

theorem lstmClassifier_le_one (P : Platform) (url : JSString) : lstmClassifier P url ≤ 1 := by
  unfold lstmClassifier
  simp only []
  exact le_trans (min_le_left _ _) (by norm_num)

/-! ## The fusion stage -/

theorem fusion_riskScore (s p : ℚ) :
    (fusion s p).2.2 = jsRound ((s * 0.6 + p * 0.4) * 100) := rfl

theorem fusion_phishing {s p : ℚ} (h : 0.7 ≤ s * 0.6 + p * 0.4) :
    (fusion s p).1 = Verdict.phishing ∧
      (fusion s p).2.1 = min 95 (jsRound ((s * 0.6 + p * 0.4) * 100)) := by
  unfold fusion
  simp only [ge_iff_le, if_pos h, and_self]

theorem fusion_suspicious {s p : ℚ} (h1 : 0.4 ≤ s * 0.6 + p * 0.4)
    (h2 : s * 0.6 + p * 0.4 < 0.7) :
    (fusion s p).1 = Verdict.suspicious ∧
      (fusion s p).2.1 = jsRound ((s * 0.6 + p * 0.4) * 100) := by
  unfold fusion
  simp only [ge_iff_le, if_neg (not_le.mpr h2), if_pos h1, and_self]

theorem fusion_safe {s p : ℚ} (h : s * 0.6 + p * 0.4 < 0.4) :
    (fusion s p).1 = Verdict.safe ∧
      (fusion s p).2.1 = min 95 (jsRound ((1 - (s * 0.6 + p * 0.4)) * 100)) := by
  have h7 : ¬ (0.7 : ℚ) ≤ s * 0.6 + p * 0.4 := by
    intro h'; norm_num at h h'; linarith
  unfold fusion
  simp only [ge_iff_le, if_neg h7, if_neg (not_le.mpr h), and_self]

theorem fusion_confidence_bounds (s p : ℚ) :
    0 ≤ (fusion s p).2.1 ∧ (fusion s p).2.1 ≤ 95 := by
  rcases le_or_lt (0.7 : ℚ) (s * 0.6 + p * 0.4) with h | h
  · rw [(fusion_phishing h).2]
    have : (0 : Int) ≤ jsRound ((s * 0.6 + p * 0.4) * 100) :=
      jsRound_nonneg (by norm_num at h ⊢; linarith)
    exact ⟨le_min (by norm_num) this, min_le_left _ _⟩
  · rcases le_or_lt (0.4 : ℚ) (s * 0.6 + p * 0.4) with h4 | h4
    · rw [(fusion_suspicious h4 h).2]
      have hlo : (0 : Int) ≤ jsRound ((s * 0.6 + p * 0.4) * 100) :=
        jsRound_nonneg (by norm_num at h4 ⊢; linarith)
      have hhi : jsRound ((s * 0.6 + p * 0.4) * 100) ≤ 70 :=
        jsRound_le_of_le (by norm_num at h ⊢; linarith)
      exact ⟨hlo, by omega⟩
    · rw [(fusion_safe h4).2]
      have : (0 : Int) ≤ jsRound ((1 - (s * 0.6 + p * 0.4)) * 100) :=
        jsRound_nonneg (by norm_num at h4 ⊢; linarith)
      exact ⟨le_min (by norm_num) this, min_le_left _ _⟩

theorem fusion_riskScore_nonneg {s p : ℚ} (hs : 0 ≤ s) (hp : 0 ≤ p) : 0 ≤ (fusion s p).2.2 := by
  rw [fusion_riskScore]
  apply jsRound_nonneg
  have h1 : 0 ≤ s * 0.6 := mul_nonneg hs (by norm_num)
  have h2 : 0 ≤ p * 0.4 := mul_nonneg hp (by norm_num)
  have : 0 ≤ s * 0.6 + p * 0.4 := add_nonneg h1 h2
  exact mul_nonneg this (by norm_num)

/-! ## Totality and ranges of the result (C5) -/

/-- C5: for every input string (and every host) `analyzeURL` returns a result whose
confidence is an integer between 0 and 95 and whose riskScore is a non-negative integer;
`analyzeURL` is a total function, so the unparseable path and the `suspicious` band are
covered. -/
theorem analyzeURL_confidence_riskScore_range (P : Platform) (url : JSString) :
    0 ≤ (analyzeURL P url).confidence ∧ (analyzeURL P url).confidence ≤ 95 ∧
    0 ≤ (analyzeURL P url).riskScore := by
  have hc := fusion_confidence_bounds (randomForestClassifier (extractFeatures P url))
    (lstmClassifier P url)
  have hr := fusion_riskScore_nonneg (randomForestClassifier_nonneg (extractFeatures P url))
    (lstmClassifier_nonneg P url)
  exact ⟨hc.1, hc.2, hr⟩

/-! ## The clamp of the pattern score (C6) -/

/-- C6: for every input string, of any length and content, `lstmClassifier` returns a value
in the closed range from 0 to 1. -/
theorem lstmClassifier_in_unit_interval (P : Platform) (url : JSString) :
    0 ≤ lstmClassifier P url ∧ lstmClassifier P url ≤ 1 :=
  ⟨lstmClassifier_nonneg P url, lstmClassifier_le_one P url⟩

/-! ## The two shapes of a feature record (C7) -/

/-- C7: `extractFeatures` is total, and its result has one of two shapes: when the `URL`
constructor throws, the record is exactly `{invalidURL: 1}` with no other property; when it
succeeds, all sixteen structural and lexical properties are present and `invalidURL` is
absent.  No other record is ever returned. -/
theorem extractFeatures_two_shapes (P : Platform) (url : JSString) :
    (P.URL (withScheme url) = none ∧ extractFeatures P url = invalidRecord ∧
      (extractFeatures P url).onlyInvalid = true ∧ (extractFeatures P url).complete = false) ∨
    ((P.URL (withScheme url)).isSome = true ∧ (extractFeatures P url).complete = true ∧
      (extractFeatures P url).onlyInvalid = false) := by
  unfold extractFeatures
  cases h : P.URL (withScheme url) with
  | none => left; exact ⟨rfl, rfl, rfl, rfl⟩
  | some urlObj => right; exact ⟨rfl, rfl, rfl⟩

/-! ## The unclamped risk score (C9) -/

theorem randomForestClassifier_allRulesRecord :
    randomForestClassifier allRulesRecord = 8.7 / 7 := by
  norm_num [randomForestClassifier, allRulesRecord, tree1, tree2, tree3, tree4, tree5, tree6,
    tree7, specialRatio, jsDiv, JSRatio.gt, gt, truthy, addIf]

/-- C9: `riskScore` is not clamped and can exceed 100.  The record `allRulesRecord` has all
sixteen properties and no `invalidURL`, every rule of trees 1 to 6 fires on it, its
structural score is `8.7/7`, above 1; with the pattern score `p = 1`, which lies in `[0, 1]`,
`final = 0.6*s + 0.4*p` is above 1, the verdict is `phishing`, the confidence stays at 95 and
the riskScore is 115. -/
theorem riskScore_can_exceed_100 :
    allRulesRecord.complete = true ∧
    randomForestClassifier allRulesRecord = 8.7 / 7 ∧
    1 < randomForestClassifier allRulesRecord ∧
    (0 : ℚ) ≤ 1 ∧ (1 : ℚ) ≤ 1 ∧
    1 < 0.6 * randomForestClassifier allRulesRecord + 0.4 * 1 ∧
    fusion (randomForestClassifier allRulesRecord) 1 = (Verdict.phishing, 95, 115) ∧
    100 < (fusion (randomForestClassifier allRulesRecord) 1).2.2 := by
  have hr : jsRound ((8.7 / 7 * 0.6 + 1 * 0.4) * 100) = 115 :=
    jsRound_eq (by norm_num) (by norm_num)
  have hf : fusion (8.7 / 7) 1 = (Verdict.phishing, 95, 115) := by
    have h := fusion_phishing (s := 8.7 / 7) (p := 1) (by norm_num)
    have h3 := fusion_riskScore (8.7 / 7) 1
    rw [hr] at h h3
    have h2 : (fusion (8.7 / 7) 1).2.1 = 95 := by rw [h.2]; decide
    exact Prod.ext h.1 (Prod.ext h2 h3)
  rw [randomForestClassifier_allRulesRecord, hf]
  refine ⟨rfl, rfl, by norm_num, by norm_num, le_rfl, by norm_num, rfl, by decide⟩

/-! ## Results of a given pair of scores -/

theorem fusion_below_phishing {s p : ℚ} (h : s * 0.6 + p * 0.4 < 0.7) :
    (fusion s p).1 = Verdict.safe ∨ (fusion s p).1 = Verdict.suspicious := by
  rcases le_or_lt (0.4 : ℚ) (s * 0.6 + p * 0.4) with h4 | h4
  · exact Or.inr (fusion_suspicious h4 h).1
  · exact Or.inl (fusion_safe h4).1

theorem analyzeURL_safe_of_scores {P : Platform} {url : JSString} {s p : ℚ} {c r : Int}
    (hs : randomForestClassifier (extractFeatures P url) = s) (hp : lstmClassifier P url = p)
    (h : s * 0.6 + p * 0.4 < 0.4)
    (hc1 : (c : ℚ) - 1 / 2 ≤ (1 - (s * 0.6 + p * 0.4)) * 100)
    (hc2 : (1 - (s * 0.6 + p * 0.4)) * 100 < (c : ℚ) + 1 / 2) (hc : c ≤ 95)
    (hr1 : (r : ℚ) - 1 / 2 ≤ (s * 0.6 + p * 0.4) * 100)
    (hr2 : (s * 0.6 + p * 0.4) * 100 < (r : ℚ) + 1 / 2) :
    (analyzeURL P url).verdict = Verdict.safe ∧ (analyzeURL P url).confidence = c ∧
      (analyzeURL P url).riskScore = r := by
  show (fusion _ _).1 = _ ∧ (fusion _ _).2.1 = _ ∧ (fusion _ _).2.2 = _
  rw [hs, hp]
  refine ⟨(fusion_safe h).1, ?_, ?_⟩
  · rw [(fusion_safe h).2, jsRound_eq hc1 hc2]
    exact min_eq_right hc
  · rw [fusion_riskScore, jsRound_eq hr1 hr2]

/-! ## Unparseable input (C1) -/

theorem extractFeatures_of_throw {P : Platform} {url : JSString}
    (h : P.URL (withScheme url) = none) : extractFeatures P url = invalidRecord := by
  unfold extractFeatures
  rw [h]

theorem randomForestClassifier_invalidRecord :
    randomForestClassifier invalidRecord = 1.6 / 7 := by
  norm_num [randomForestClassifier, invalidRecord, tree1, tree2, tree3, tree4, tree5, tree6,
    tree7, specialRatio, jsDiv, JSRatio.gt, gt, truthy, addIf]

theorem lstmClassifier_scenarioC {P : Platform} (hlow : P.toLowerCase scenarioC = scenarioC) :
    lstmClassifier P scenarioC = 0 := by
  unfold lstmClassifier
  simp only [hlow]
  rw [show matchLetterRuns scenarioC = [] from by decide]
  simp (disch := decide) only [addIf_pos, addIf_neg, sequential, List.foldl]
  norm_num

/-- C1, counterexample: the `URL` constructor throws on `https://not a url`, and the verdict
of `"not a url"` is `safe`, not `phishing`. -/
theorem unparseable_verdict_counterexample :
    withScheme scenarioC = utf16 "https://not a url" ∧
    scenarioHost.URL (withScheme scenarioC) = none ∧
    (analyzeURL scenarioHost scenarioC).verdict = Verdict.safe ∧
    (analyzeURL scenarioHost scenarioC).verdict ≠ Verdict.phishing := by
  have hs : randomForestClassifier (extractFeatures scenarioHost scenarioC) = 1.6 / 7 := by
    rw [extractFeatures_of_throw (by decide), randomForestClassifier_invalidRecord]
  have hp : lstmClassifier scenarioHost scenarioC = 0 := lstmClassifier_scenarioC (by decide)
  have h := analyzeURL_safe_of_scores (c := 86) (r := 14) hs hp (by norm_num) (by norm_num)
    (by norm_num) (by decide) (by norm_num) (by norm_num)
  refine ⟨by decide, by decide, h.1, ?_⟩
  rw [h.1]
  decide

/-- C1, amended: for every input string on which the `URL` constructor throws (after
`https://` is prepended when the string does not start with `http`), `extractFeatures`
returns exactly `{invalidURL: 1}` and the verdict of `analyzeURL` is never `phishing`: it is
`safe` or `suspicious`. -/
theorem unparseable_never_phishing (P : Platform) (url : JSString)
    (h : P.URL (withScheme url) = none) :
    extractFeatures P url = invalidRecord ∧
    (analyzeURL P url).verdict ≠ Verdict.phishing ∧
    ((analyzeURL P url).verdict = Verdict.safe ∨
      (analyzeURL P url).verdict = Verdict.suspicious) := by
  have hs : randomForestClassifier (extractFeatures P url) = 1.6 / 7 := by
    rw [extractFeatures_of_throw h, randomForestClassifier_invalidRecord]
  have hp := lstmClassifier_le_one P url
  have hv : (analyzeURL P url).verdict = Verdict.safe ∨
      (analyzeURL P url).verdict = Verdict.suspicious := by
    show (fusion _ _).1 = _ ∨ (fusion _ _).1 = _
    rw [hs]
    apply fusion_below_phishing
    norm_num
    linarith
  refine ⟨extractFeatures_of_throw h, ?_, hv⟩
  rcases hv with hv | hv <;> rw [hv] <;> decide

/-- The hypothesis of `unparseable_never_phishing` holds of `"not a url"`. -/
theorem unparseable_never_phishing_witness :
    scenarioHost.URL (withScheme scenarioC) = none ∧
    extractFeatures scenarioHost scenarioC = invalidRecord ∧
    (analyzeURL scenarioHost scenarioC).verdict ≠ Verdict.phishing :=
  ⟨by decide, (unparseable_never_phishing scenarioHost scenarioC (by decide)).1,
    (unparseable_never_phishing scenarioHost scenarioC (by decide)).2.1⟩

/-! ## Scenario A (C2) -/

theorem extractFeatures_scenarioA {P : Platform} (hURL : P.URL scenarioA = some urlObjA)
    (hlow : P.toLowerCase scenarioA = scenarioA)
    (hhost : P.toLowerCase urlObjA.hostname = urlObjA.hostname) :
    extractFeatures P scenarioA = featuresA := by
  unfold extractFeatures
  rw [show withScheme scenarioA = scenarioA from by decide, hURL]
  simp only [hlow, hhost]
  decide

theorem randomForestClassifier_featuresA : randomForestClassifier featuresA = 2 / 7 := by
  norm_num [randomForestClassifier, featuresA, tree1, tree2, tree3, tree4, tree5, tree6,
    tree7, specialRatio, jsDiv, JSRatio.gt, gt, truthy, addIf]

theorem finalScore_featuresA {p : ℚ} (h1 : p ≤ 1) : 2 / 7 * 0.6 + p * 0.4 < (0.7 : ℚ) := by
  norm_num
  linarith

/-- C2, counterexample: on a host that parses the input of scenario A as a browser does, the
record has `hasPhishingKeyword = 1`, `hasBrandName = 1` and `hasHTTPS = 0`, and the verdict
is not `phishing`. -/
theorem scenarioA_verdict_counterexample :
    scenarioHost.URL (withScheme scenarioA) = some urlObjA ∧
    (analyzeURL scenarioHost scenarioA).features.hasPhishingKeyword = some 1 ∧
    (analyzeURL scenarioHost scenarioA).features.hasBrandName = some 1 ∧
    (analyzeURL scenarioHost scenarioA).features.hasHTTPS = some 0 ∧
    (analyzeURL scenarioHost scenarioA).verdict ≠ Verdict.phishing := by
  have hf : extractFeatures scenarioHost scenarioA = featuresA :=
    extractFeatures_scenarioA (by decide) (by decide) (by decide)
  have hs : randomForestClassifier (extractFeatures scenarioHost scenarioA) = 2 / 7 := by
    rw [hf, randomForestClassifier_featuresA]
  have hv : (analyzeURL scenarioHost scenarioA).verdict = Verdict.safe ∨
      (analyzeURL scenarioHost scenarioA).verdict = Verdict.suspicious := by
    show (fusion _ _).1 = _ ∨ (fusion _ _).1 = _
    rw [hs]
    exact fusion_below_phishing (finalScore_featuresA (lstmClassifier_le_one _ _))
  have hfe : (analyzeURL scenarioHost scenarioA).features = featuresA := hf
  refine ⟨by decide, by rw [hfe]; rfl, by rw [hfe]; rfl, by rw [hfe]; rfl, ?_⟩
  rcases hv with hv | hv <;> rw [hv] <;> decide

/-! ## Scenario D (C3) -/

theorem extractFeatures_scenarioD {P : Platform} (hURL : P.URL scenarioD = some urlObjD)
    (hlow : P.toLowerCase scenarioD = scenarioD)
    (hhost : P.toLowerCase urlObjD.hostname = urlObjD.hostname) :
    extractFeatures P scenarioD = featuresD := by
  unfold extractFeatures
  rw [show withScheme scenarioD = scenarioD from by decide, hURL]
  simp only [hlow, hhost]
  decide

theorem randomForestClassifier_featuresD : randomForestClassifier featuresD = 3.1 / 7 := by
  norm_num [randomForestClassifier, featuresD, tree1, tree2, tree3, tree4, tree5, tree6,
    tree7, specialRatio, jsDiv, JSRatio.gt, gt, truthy, addIf]

theorem lstmClassifier_scenarioD {P : Platform} (hlow : P.toLowerCase scenarioD = scenarioD) :
    lstmClassifier P scenarioD = 0 := by
  unfold lstmClassifier
  simp only [hlow]
  rw [show matchLetterRuns scenarioD = [] from by decide]
  simp (disch := decide) only [addIf_pos, addIf_neg, sequential, List.foldl]
  norm_num

/-- C3, counterexample: on a host that parses the input of scenario D as a browser does, the
record has `hasIP = 1`, `hasPhishingKeyword = 1` and `hasHTTPS = 0`, and the verdict is
`safe`, not `phishing`. -/
theorem scenarioD_verdict_counterexample :
    scenarioHost.URL (withScheme scenarioD) = some urlObjD ∧
    (extractFeatures scenarioHost scenarioD).hasIP = some 1 ∧
    (extractFeatures scenarioHost scenarioD).hasPhishingKeyword = some 1 ∧
    (extractFeatures scenarioHost scenarioD).hasHTTPS = some 0 ∧
    (analyzeURL scenarioHost scenarioD).verdict ≠ Verdict.phishing := by
  have hf : extractFeatures scenarioHost scenarioD = featuresD :=
    extractFeatures_scenarioD (by decide) (by decide) (by decide)
  have hs : randomForestClassifier (extractFeatures scenarioHost scenarioD) = 3.1 / 7 := by
    rw [hf, randomForestClassifier_featuresD]
  have hp : lstmClassifier scenarioHost scenarioD = 0 := lstmClassifier_scenarioD (by decide)
  have h := analyzeURL_safe_of_scores (c := 73) (r := 27) hs hp (by norm_num) (by norm_num)
    (by norm_num) (by decide) (by norm_num) (by norm_num)
  refine ⟨by decide, by rw [hf]; rfl, by rw [hf]; rfl, by rw [hf]; rfl, ?_⟩
  rw [h.1]
  decide

/-- C3, amended: scenario D.  On every host whose `URL` constructor parses
`http://192.168.1.5/account/login` into protocol `http:`, hostname `192.168.1.5`, no port and
path `/account/login`, and whose `toLowerCase` leaves the input and hostname unchanged,
`extractFeatures` yields `hasIP = 1`, `hasPhishingKeyword = 1` and `hasHTTPS = 0`, the
structural score is `3.1/7`, the pattern score is 0, and `analyzeURL` returns verdict `safe`
with confidence 73, which is at least 70, and riskScore 27. -/
theorem scenarioD_verdict_safe (P : Platform) (hURL : P.URL scenarioD = some urlObjD)
    (hlow : P.toLowerCase scenarioD = scenarioD)
    (hhost : P.toLowerCase urlObjD.hostname = urlObjD.hostname) :
    (extractFeatures P scenarioD).hasIP = some 1 ∧
    (extractFeatures P scenarioD).hasPhishingKeyword = some 1 ∧
    (extractFeatures P scenarioD).hasHTTPS = some 0 ∧
    randomForestClassifier (extractFeatures P scenarioD) = 3.1 / 7 ∧
    lstmClassifier P scenarioD = 0 ∧
    (analyzeURL P scenarioD).verdict = Verdict.safe ∧
    (analyzeURL P scenarioD).confidence = 73 ∧
    70 ≤ (analyzeURL P scenarioD).confidence ∧
    (analyzeURL P scenarioD).riskScore = 27 := by
  have hf : extractFeatures P scenarioD = featuresD := extractFeatures_scenarioD hURL hlow hhost
  have hs : randomForestClassifier (extractFeatures P scenarioD) = 3.1 / 7 := by
    rw [hf, randomForestClassifier_featuresD]
  have hp : lstmClassifier P scenarioD = 0 := lstmClassifier_scenarioD hlow
  have h := analyzeURL_safe_of_scores (c := 73) (r := 27) hs hp (by norm_num) (by norm_num)
    (by norm_num) (by decide) (by norm_num) (by norm_num)
  refine ⟨by rw [hf]; rfl, by rw [hf]; rfl, by rw [hf]; rfl, hs, hp, h.1, h.2.1, ?_, h.2.2⟩
  rw [h.2.1]
  decide

/-- The hypotheses of `scenarioD_verdict_safe` hold of `scenarioHost`. -/
theorem scenarioD_verdict_safe_witness :
    scenarioHost.URL scenarioD = some urlObjD ∧
    scenarioHost.toLowerCase scenarioD = scenarioD ∧
    scenarioHost.toLowerCase urlObjD.hostname = urlObjD.hostname ∧
    (analyzeURL scenarioHost scenarioD).verdict = Verdict.safe ∧
    (analyzeURL scenarioHost scenarioD).confidence = 73 :=
  ⟨by decide, by decide, by decide,
    (scenarioD_verdict_safe scenarioHost (by decide) (by decide) (by decide)).2.2.2.2.2.1,
    (scenarioD_verdict_safe scenarioHost (by decide) (by decide) (by decide)).2.2.2.2.2.2.1⟩

/-! ## Scenario B (C8) -/

theorem extractFeatures_scenarioB {P : Platform} (hURL : P.URL scenarioB = some urlObjB)
    (hlow : P.toLowerCase scenarioB = scenarioB)
    (hhost : P.toLowerCase urlObjB.hostname = urlObjB.hostname) :
    extractFeatures P scenarioB = featuresB := by
  unfold extractFeatures
  rw [show withScheme scenarioB = scenarioB from by decide, hURL]
  simp only [hlow, hhost]
  decide

theorem randomForestClassifier_featuresB : randomForestClassifier featuresB = 1.5 / 7 := by
  norm_num [randomForestClassifier, featuresB, tree1, tree2, tree3, tree4, tree5, tree6,
    tree7, specialRatio, jsDiv, JSRatio.gt, gt, truthy, addIf]

theorem lstmClassifier_scenarioB {P : Platform} (hlow : P.toLowerCase scenarioB = scenarioB) :
    lstmClassifier P scenarioB = 0 := by
  unfold lstmClassifier
  simp only [hlow]
  rw [show matchLetterRuns scenarioB = [] from by decide]
  simp (disch := decide) only [addIf_pos, addIf_neg, sequential, List.foldl]
  norm_num

/-- C8: scenario B.  On every host whose `URL` constructor parses `https://www.google.com`
into protocol `https:`, hostname `www.google.com`, no port and path `/`, and whose
`toLowerCase` leaves the input and hostname unchanged, `analyzeURL` returns verdict `safe`
(confidence 87, riskScore 13), although the hostname has a subdomain label and holds the
brand name `google`, so that tree 5 adds 0.9, and although the run `www` is the one match of
the repetition pattern. -/
theorem scenarioB_verdict_safe (P : Platform) (hURL : P.URL scenarioB = some urlObjB)
    (hlow : P.toLowerCase scenarioB = scenarioB)
    (hhost : P.toLowerCase urlObjB.hostname = urlObjB.hostname) :
    (analyzeURL P scenarioB).verdict = Verdict.safe ∧
    (analyzeURL P scenarioB).confidence = 87 ∧
    (analyzeURL P scenarioB).riskScore = 13 ∧
    (extractFeatures P scenarioB).hasSubdomain = some 1 ∧
    (extractFeatures P scenarioB).hasBrandName = some 1 ∧
    tree5 (extractFeatures P scenarioB) = 0.9 ∧
    matchRepetitions (P.toLowerCase scenarioB) = [utf16 "www"] := by
  have hf : extractFeatures P scenarioB = featuresB := extractFeatures_scenarioB hURL hlow hhost
  have hs : randomForestClassifier (extractFeatures P scenarioB) = 1.5 / 7 := by
    rw [hf, randomForestClassifier_featuresB]
  have hp : lstmClassifier P scenarioB = 0 := lstmClassifier_scenarioB hlow
  have h := analyzeURL_safe_of_scores (c := 87) (r := 13) hs hp (by norm_num) (by norm_num)
    (by norm_num) (by decide) (by norm_num) (by norm_num)
  refine ⟨h.1, h.2.1, h.2.2, by rw [hf]; rfl, by rw [hf]; rfl, ?_, ?_⟩
  · rw [hf]
    norm_num [featuresB, tree5, gt, truthy, addIf]
  · rw [hlow]
    decide

/-- The hypotheses of `scenarioB_verdict_safe` hold of `scenarioHost`. -/
theorem scenarioB_verdict_safe_witness :
    scenarioHost.URL scenarioB = some urlObjB ∧
    scenarioHost.toLowerCase scenarioB = scenarioB ∧
    scenarioHost.toLowerCase urlObjB.hostname = urlObjB.hostname ∧
    (analyzeURL scenarioHost scenarioB).verdict = Verdict.safe :=
  ⟨by decide, by decide, by decide,
    (scenarioB_verdict_safe scenarioHost (by decide) (by decide) (by decide)).1⟩

/-! ## The score of an unparseable input (C11) -/

theorem jsRound_ge_of_half {x : ℚ} {n : Int} (h : (n : ℚ) - 1 / 2 ≤ x) : n ≤ jsRound x := by
  unfold jsRound
  rw [Int.le_floor]
  linarith

theorem jsRound_le_of_half {x : ℚ} {n : Int} (h : x < (n : ℚ) + 1 / 2) : jsRound x ≤ n := by
  unfold jsRound
  have h1 : ⌊x + 1 / 2⌋ < n + 1 := by
    rw [Int.floor_lt]
    push_cast
    linarith
  omega

theorem trees_invalidRecord :
    tree1 invalidRecord = 0.1 ∧ tree2 invalidRecord = 0.5 ∧ tree3 invalidRecord = 0 ∧
    tree4 invalidRecord = 0 ∧ tree5 invalidRecord = 0 ∧ tree6 invalidRecord = 0 ∧
    tree7 invalidRecord = 1.0 := by
  refine ⟨?_, ?_, ?_, ?_, ?_, ?_, ?_⟩ <;>
    norm_num [invalidRecord, tree1, tree2, tree3, tree4, tree5, tree6, tree7, specialRatio,
      jsDiv, JSRatio.gt, gt, truthy, addIf]

/-- C11: for every input string on which the `URL` constructor throws, the record is
`{invalidURL: 1}`; tree 1 adds 0.1 (absent `urlLength`), tree 2 adds 0.5 (absent `hasHTTPS`),
tree 4 adds nothing (the ratio is `NaN`), tree 7 adds 1.0, and the structural score is exactly
`1.6/7`.  With the pattern score `p` in `[0, 1]`, `final = 0.96/7 + 0.4*p` is at most
`0.96/7 + 0.4`, which is below 0.7, so the verdict is never `phishing`: it is `safe` when
`p < 4.6/7` and `suspicious` otherwise, and the riskScore lies between 14 and 54. -/
theorem unparseable_score_and_bands (P : Platform) (url : JSString)
    (h : P.URL (withScheme url) = none) :
    extractFeatures P url = invalidRecord ∧
    tree1 (extractFeatures P url) = 0.1 ∧ tree2 (extractFeatures P url) = 0.5 ∧
    specialRatio (extractFeatures P url) = JSRatio.nan ∧ tree4 (extractFeatures P url) = 0 ∧
    tree7 (extractFeatures P url) = 1.0 ∧
    randomForestClassifier (extractFeatures P url) = 1.6 / 7 ∧
    0 ≤ lstmClassifier P url ∧ lstmClassifier P url ≤ 1 ∧
    randomForestClassifier (extractFeatures P url) * 0.6 + lstmClassifier P url * 0.4 =
      0.96 / 7 + 0.4 * lstmClassifier P url ∧
    0.96 / 7 + 0.4 * lstmClassifier P url ≤ 0.96 / 7 + 0.4 ∧
    (0.96 / 7 + 0.4 : ℚ) < 0.7 ∧
    (analyzeURL P url).verdict ≠ Verdict.phishing ∧
    (lstmClassifier P url < 4.6 / 7 → (analyzeURL P url).verdict = Verdict.safe) ∧
    (4.6 / 7 ≤ lstmClassifier P url → (analyzeURL P url).verdict = Verdict.suspicious) ∧
    14 ≤ (analyzeURL P url).riskScore ∧ (analyzeURL P url).riskScore ≤ 54 := by
  have hf : extractFeatures P url = invalidRecord := extractFeatures_of_throw h
  have hs : randomForestClassifier (extractFeatures P url) = 1.6 / 7 := by
    rw [hf, randomForestClassifier_invalidRecord]
  have hp0 := lstmClassifier_nonneg P url
  have hp1 := lstmClassifier_le_one P url
  have hv : (analyzeURL P url).verdict =
      (fusion (1.6 / 7) (lstmClassifier P url)).1 := by
    show (fusion _ _).1 = _
    rw [hs]
  have hr : (analyzeURL P url).riskScore =
      jsRound ((1.6 / 7 * 0.6 + lstmClassifier P url * 0.4) * 100) := by
    show (fusion _ _).2.2 = _
    rw [hs, fusion_riskScore]
  have hsafe : lstmClassifier P url < 4.6 / 7 → (analyzeURL P url).verdict = Verdict.safe := by
    intro hlt
    rw [hv]
    exact (fusion_safe (by norm_num at hlt ⊢; linarith)).1
  have hsusp : 4.6 / 7 ≤ lstmClassifier P url →
      (analyzeURL P url).verdict = Verdict.suspicious := by
    intro hge
    rw [hv]
    exact (fusion_suspicious (by norm_num at hge ⊢; linarith) (by norm_num; linarith)).1
  have hnot : (analyzeURL P url).verdict ≠ Verdict.phishing := by
    rcases lt_or_le (lstmClassifier P url) (4.6 / 7) with hlt | hge
    · rw [hsafe hlt]; decide
    · rw [hsusp hge]; decide
  refine ⟨hf, ?_, ?_, ?_, ?_, ?_, hs, hp0, hp1, ?_, ?_, by norm_num, hnot, hsafe, hsusp, ?_, ?_⟩
  · rw [hf]; exact trees_invalidRecord.1
  · rw [hf]; exact trees_invalidRecord.2.1
  · rw [hf]; rfl
  · rw [hf]; exact trees_invalidRecord.2.2.2.1
  · rw [hf]; exact trees_invalidRecord.2.2.2.2.2.2
  · rw [hs]; ring
  · linarith
  · rw [hr]
    exact jsRound_ge_of_half (by norm_num; linarith)
  · rw [hr]
    exact jsRound_le_of_half (by norm_num; linarith)

/-- The hypothesis of `unparseable_score_and_bands` holds of `"not a url"`, whose pattern
score is 0: the verdict is `safe`, the confidence 86 and the riskScore 14. -/
theorem unparseable_score_and_bands_witness :
    scenarioHost.URL (withScheme scenarioC) = none ∧
    randomForestClassifier (extractFeatures scenarioHost scenarioC) = 1.6 / 7 ∧
    lstmClassifier scenarioHost scenarioC = 0 ∧
    (analyzeURL scenarioHost scenarioC).verdict = Verdict.safe ∧
    (analyzeURL scenarioHost scenarioC).confidence = 86 ∧
    (analyzeURL scenarioHost scenarioC).riskScore = 14 := by
  have hT := unparseable_score_and_bands scenarioHost scenarioC (by decide)
  have hp : lstmClassifier scenarioHost scenarioC = 0 := lstmClassifier_scenarioC (by decide)
  have hsafe := hT.2.2.2.2.2.2.2.2.2.2.2.2.2.1 (by rw [hp]; norm_num)
  have h := analyzeURL_safe_of_scores (c := 86) (r := 14) hT.2.2.2.2.2.2.1 hp (by norm_num)
    (by norm_num) (by norm_num) (by decide) (by norm_num) (by norm_num)
  exact ⟨by decide, hT.2.2.2.2.2.2.1, hp, hsafe, h.2.1, h.2.2⟩

/-! ## The rounding error of `roundDouble` -/

theorem floorLog2_go_spec : ∀ (fuel n : Nat), 1 ≤ n → n ≤ fuel →
    2 ^ floorLog2.go fuel n ≤ n ∧ n < 2 ^ (floorLog2.go fuel n + 1)
  | 0, n, h1, h2 => by omega
  | fuel + 1, n, h1, h2 => by
    unfold floorLog2.go
    by_cases h : n ≤ 1
    · have : n = 1 := by omega
      simp [this]
    · simp only [h, if_false]
      have ih := floorLog2_go_spec fuel (n / 2) (by omega) (by omega)
      have e : 1 + floorLog2.go fuel (n / 2) = floorLog2.go fuel (n / 2) + 1 := by omega
      rw [e, pow_succ, pow_succ]
      rw [pow_succ] at ih
      omega

theorem floorLog2_spec {n : Nat} (h : 1 ≤ n) :
    2 ^ floorLog2 n ≤ n ∧ n < 2 ^ (floorLog2 n + 1) :=
  floorLog2_go_spec n n h le_rfl

theorem roundQuotient_error {N D : Nat} (hD : 0 < D) :
    2 * |((roundQuotient N D : Nat) : ℚ) * D - N| ≤ D := by
  have hdm : (N : ℚ) = (D : ℚ) * ((N / D : Nat) : ℚ) + ((N % D : Nat) : ℚ) := by
    exact_mod_cast (Nat.div_add_mod N D).symm
  have hr : ((N % D : Nat) : ℚ) < D := by exact_mod_cast Nat.mod_lt N hD
  have hr0 : (0 : ℚ) ≤ ((N % D : Nat) : ℚ) := Nat.cast_nonneg _
  have hlow : ∀ m : Nat, m = N / D → 2 * (N % D) ≤ D → 2 * |((m : Nat) : ℚ) * D - N| ≤ D := by
    intro m hm h
    have h' : 2 * ((N % D : Nat) : ℚ) ≤ D := by exact_mod_cast h
    have hx : ((m : Nat) : ℚ) * D - N = -((N % D : Nat) : ℚ) := by
      rw [hm]; linarith
    rw [hx, abs_neg, abs_of_nonneg hr0]
    exact h'
  have hhigh : ∀ m : Nat, m = N / D + 1 → D ≤ 2 * (N % D) →
      2 * |((m : Nat) : ℚ) * D - N| ≤ D := by
    intro m hm h
    have h' : (D : ℚ) ≤ 2 * ((N % D : Nat) : ℚ) := by exact_mod_cast h
    have hx : ((m : Nat) : ℚ) * D - N = (D : ℚ) - ((N % D : Nat) : ℚ) := by
      rw [hm]; push_cast; linarith
    rw [hx, abs_of_nonneg (by linarith)]
    linarith
  unfold roundQuotient
  split_ifs with h1 h2 h3
  · exact hlow _ rfl (by omega)
  · exact hhigh _ rfl (by omega)
  · exact hlow _ rfl (by omega)
  · exact hhigh _ rfl (by omega)

theorem scaleBy_eq (m : Nat) (t : Int) : scaleBy m t = (m : ℚ) * (2 : ℚ) ^ (-t) := by
  unfold scaleBy
  rcases le_or_lt 0 t with h | h
  · have h1 : (-t).toNat = 0 := by omega
    have h2 : ((t.toNat : Nat) : Int) = t := Int.toNat_of_nonneg h
    rw [h1]
    conv_rhs => rw [← h2]
    rw [zpow_neg, zpow_natCast]
    push_cast
    field_simp
  · have h1 : t.toNat = 0 := by omega
    have h2 : (((-t).toNat : Nat) : Int) = -t := Int.toNat_of_nonneg (by omega)
    rw [h1]
    conv_rhs => rw [← h2]
    rw [zpow_natCast]
    push_cast
    simp

theorem scaled_ratio (n d : Nat) (t : Int) (hd : 0 < d) :
    ((n * 2 ^ t.toNat : Nat) : ℚ) / ((d * 2 ^ (-t).toNat : Nat) : ℚ) =
      (n : ℚ) / d * (2 : ℚ) ^ t := by
  have hd' : (d : ℚ) ≠ 0 := by exact_mod_cast hd.ne'
  rcases le_or_lt 0 t with h | h
  · have h1 : (-t).toNat = 0 := by omega
    have h2 : ((t.toNat : Nat) : Int) = t := Int.toNat_of_nonneg h
    rw [h1]
    conv_rhs => rw [← h2]
    rw [zpow_natCast]
    push_cast
    field_simp
  · have h1 : t.toNat = 0 := by omega
    have h2 : (((-t).toNat : Nat) : Int) = -t := Int.toNat_of_nonneg (by omega)
    have h3 : t = -(((-t).toNat : Nat) : Int) := by omega
    rw [h1]
    conv_rhs => rw [h3]
    rw [zpow_neg, zpow_natCast]
    push_cast
    field_simp

theorem roundPos_error {n d : Nat} (hn : 1 ≤ n) (hd : 1 ≤ d) :
    |roundPos n d - (n : ℚ) / d| ≤ (n : ℚ) / d / 2 ^ 53 := by
  obtain ⟨hL1, hL2⟩ := floorLog2_spec hn
  obtain ⟨hM1, hM2⟩ := floorLog2_spec hd
  have hn0 : (0 : ℚ) < n := by exact_mod_cast hn
  have hd0 : (0 : ℚ) < d := by exact_mod_cast hd
  have hL1' : (2 : ℚ) ^ floorLog2 n ≤ n := by exact_mod_cast hL1
  have hL2' : (n : ℚ) < 2 ^ floorLog2 n * 2 := by
    rw [← pow_succ]; exact_mod_cast hL2
  have hM1' : (2 : ℚ) ^ floorLog2 d ≤ d := by exact_mod_cast hM1
  have hM2' : (d : ℚ) < 2 ^ floorLog2 d * 2 := by
    rw [← pow_succ]; exact_mod_cast hM2
  have hpL : (0 : ℚ) < 2 ^ floorLog2 n := by positivity
  have hpM : (0 : ℚ) < 2 ^ floorLog2 d := by positivity
  -- the shift and the scaled quotient
  set s : Int := 53 + (floorLog2 d : Int) - (floorLog2 n : Int) with hs
  set N : Nat := n * 2 ^ s.toNat with hN
  set D : Nat := d * 2 ^ (-s).toNat with hD
  have hDpos : 0 < D := Nat.mul_pos hd (by positivity)
  have hD0 : (0 : ℚ) < D := by exact_mod_cast hDpos
  have hP : (0 : ℚ) < (2 : ℚ) ^ (-s) := by positivity
  have h2s : (2 : ℚ) ^ s = 2 ^ 53 * 2 ^ floorLog2 d / 2 ^ floorLog2 n := by
    rw [hs, zpow_sub₀ (by norm_num), zpow_add₀ (by norm_num), zpow_natCast, zpow_natCast]
    norm_num
  have hy : (N : ℚ) / D = (n : ℚ) / d * (2 : ℚ) ^ s := scaled_ratio n d s hd
  have hinv : (2 : ℚ) ^ s * (2 : ℚ) ^ (-s) = 1 := by
    rw [← zpow_add₀ (by norm_num)]; simp
  have hx : (n : ℚ) / d = (N : ℚ) / D * (2 : ℚ) ^ (-s) := by
    rw [hy, mul_assoc, hinv, mul_one]
  -- bounds on the scaled quotient
  have hform : (n : ℚ) / d * (2 ^ 53 * 2 ^ floorLog2 d / 2 ^ floorLog2 n) =
      (n : ℚ) * 2 ^ 53 * 2 ^ floorLog2 d / ((d : ℚ) * 2 ^ floorLog2 n) := by
    field_simp
    ring
  have hylow : (2 : ℚ) ^ 52 < (N : ℚ) / D := by
    rw [hy, h2s, hform, lt_div_iff₀ (by positivity)]
    have key : (d : ℚ) * 2 ^ floorLog2 n < 2 * (n * 2 ^ floorLog2 d) := by
      calc (d : ℚ) * 2 ^ floorLog2 n ≤ d * n := by
            exact mul_le_mul_of_nonneg_left hL1' hd0.le
        _ < 2 ^ floorLog2 d * 2 * n := by
            exact mul_lt_mul_of_pos_right hM2' hn0
        _ = 2 * (n * 2 ^ floorLog2 d) := by ring
    linarith
  have hyhigh : (N : ℚ) / D < 2 ^ 54 := by
    rw [hy, h2s, hform, div_lt_iff₀ (by positivity)]
    have key : (n : ℚ) * 2 ^ floorLog2 d < 2 * (d * 2 ^ floorLog2 n) := by
      calc (n : ℚ) * 2 ^ floorLog2 d ≤ n * d := by
            exact mul_le_mul_of_nonneg_left hM1' hn0.le
        _ < 2 ^ floorLog2 n * 2 * d := by
            exact mul_lt_mul_of_pos_right hL2' hd0
        _ = 2 * (d * 2 ^ floorLog2 n) := by ring
    linarith
  have hval : roundPos n d =
      if 2 ^ 53 * D ≤ N then scaleBy (roundQuotient N (2 * D)) (s - 1)
      else scaleBy (roundQuotient N D) s := rfl
  rw [hval]
  split_ifs with hc
  · -- one more halving
    have hc' : (2 : ℚ) ^ 53 * D ≤ N := by exact_mod_cast hc
    have hyb : (2 : ℚ) ^ 53 ≤ (N : ℚ) / D := by
      rw [le_div_iff₀ hD0]; exact hc'
    have herr := roundQuotient_error (N := N) (D := 2 * D) (by omega)
    push_cast at herr
    have hP2 : (2 : ℚ) ^ (-(s - 1)) = 2 * (2 : ℚ) ^ (-s) := by
      rw [show -(s - 1) = 1 + -s by ring, zpow_add₀ (by norm_num)]
      norm_num
    rw [scaleBy_eq, hP2, hx]
    set m : ℚ := ((roundQuotient N (2 * D) : Nat) : ℚ) with hm
    set P : ℚ := (2 : ℚ) ^ (-s) with hPdef
    have hrew : m * (2 * P) - (N : ℚ) / D * P = (m * (2 * D) - N) / D * P := by
      field_simp
      ring
    rw [hrew, abs_mul, abs_div, abs_of_pos hP, abs_of_pos hD0]
    have h1 : |m * (2 * (D : ℚ)) - N| / D ≤ 1 := by
      rw [div_le_iff₀ hD0]; linarith
    have h2 : (1 : ℚ) ≤ (N : ℚ) / D / 2 ^ 53 := by
      rw [le_div_iff₀ (by positivity)]; linarith
    calc |m * (2 * (D : ℚ)) - N| / D * P ≤ 1 * P := by
          exact mul_le_mul_of_nonneg_right h1 hP.le
      _ ≤ (N : ℚ) / D / 2 ^ 53 * P := by
          exact mul_le_mul_of_nonneg_right h2 hP.le
      _ = (N : ℚ) / D * P / 2 ^ 53 := by ring
  · have herr := roundQuotient_error (N := N) (D := D) hDpos
    rw [scaleBy_eq, hx]
    set m : ℚ := ((roundQuotient N D : Nat) : ℚ) with hm
    set P : ℚ := (2 : ℚ) ^ (-s) with hPdef
    have hrew : m * P - (N : ℚ) / D * P = (m * D - N) / D * P := by
      field_simp
      ring
    rw [hrew, abs_mul, abs_div, abs_of_pos hP, abs_of_pos hD0]
    have h1 : |m * (D : ℚ) - N| / D ≤ 1 / 2 := by
      rw [div_le_iff₀ hD0]; linarith
    have h2 : (1 / 2 : ℚ) ≤ (N : ℚ) / D / 2 ^ 53 := by
      rw [le_div_iff₀ (by positivity)]
      have : (2 : ℚ) ^ 53 = 2 * 2 ^ 52 := by norm_num
      linarith
    calc |m * (D : ℚ) - N| / D * P ≤ 1 / 2 * P := by
          exact mul_le_mul_of_nonneg_right h1 hP.le
      _ ≤ (N : ℚ) / D / 2 ^ 53 * P := by
          exact mul_le_mul_of_nonneg_right h2 hP.le
      _ = (N : ℚ) / D * P / 2 ^ 53 := by ring

theorem roundDouble_error (q : ℚ) : |roundDouble q - q| ≤ |q| / 2 ^ 53 := by
  unfold roundDouble
  split_ifs with h0 hpos
  · simp [h0]
  · have hnum : 0 < q.num := Rat.num_pos.mpr hpos
    have hn : 1 ≤ q.num.natAbs := by omega
    have hq : ((q.num.natAbs : Nat) : ℚ) / (q.den : ℚ) = q := by
      have : ((q.num.natAbs : Nat) : ℚ) = (q.num : ℚ) := by
        rw [Nat.cast_natAbs, abs_of_pos hnum]
      rw [this]; exact Rat.num_div_den q
    have := roundPos_error hn q.den_pos
    rw [hq] at this
    rwa [abs_of_pos hpos]
  · have hneg : q < 0 := lt_of_le_of_ne (not_lt.mp hpos) h0
    have hnum : q.num < 0 := Rat.num_neg.mpr hneg
    have hn : 1 ≤ q.num.natAbs := by omega
    have hq : ((q.num.natAbs : Nat) : ℚ) / (q.den : ℚ) = -q := by
      have : ((q.num.natAbs : Nat) : ℚ) = -(q.num : ℚ) := by
        rw [Nat.cast_natAbs, abs_of_neg hnum]; push_cast; ring
      rw [this, neg_div]; rw [Rat.num_div_den q]
    have := roundPos_error hn q.den_pos
    rw [hq] at this
    rw [abs_of_neg hneg]
    rw [show -roundPos q.num.natAbs q.den - q = -(roundPos q.num.natAbs q.den - -q) by ring,
      abs_neg]
    exact this

/-! ## Conditional additions on doubles -/

theorem lit_bounds :
    (0 ≤ lit 0.1 ∧ lit 0.1 ≤ 1) ∧ (0 ≤ lit 0.4 ∧ lit 0.4 ≤ 1) ∧ (0 ≤ lit 0.5 ∧ lit 0.5 ≤ 1) ∧
    (0 ≤ lit 0.6 ∧ lit 0.6 ≤ 1) ∧ (0 ≤ lit 0.7 ∧ lit 0.7 ≤ 1) ∧ (0 ≤ lit 0.8 ∧ lit 0.8 ≤ 1) ∧
    (0 ≤ lit 0.9 ∧ lit 0.9 ≤ 1) ∧ (0 ≤ lit 1.0 ∧ lit 1.0 ≤ 1) := by
  decide!

theorem accumulate_error : ∀ (steps : List (Bool × ℚ)) (s e : ℚ) (j : Nat),
    (∀ ck ∈ steps, 0 ≤ ck.2 ∧ ck.2 ≤ 1) → 0 ≤ e → e ≤ j → |s - e| ≤ 16 / 2 ^ 53 * j →
    j + steps.length ≤ 15 →
    |accumulate steps s - (e + exactSum steps)| ≤ 16 / 2 ^ 53 * ((j + steps.length : Nat) : ℚ) ∧
      0 ≤ e + exactSum steps ∧ e + exactSum steps ≤ ((j + steps.length : Nat) : ℚ)
  | [], s, e, j, _, h0, h1, h2, _ => by
    simpa [accumulate, exactSum] using ⟨h2, h0, h1⟩
  | (c, k) :: rest, s, e, j, hk, h0, h1, h2, hlen => by
    have hk0 := hk (c, k) (List.mem_cons_self _ _)
    have hrest : ∀ ck ∈ rest, 0 ≤ ck.2 ∧ ck.2 ≤ 1 := fun ck h => hk ck (List.mem_cons_of_mem _ h)
    have hlen' : j + 1 + rest.length ≤ 15 := by
      simp only [List.length_cons] at hlen; omega
    have hj : (j : ℚ) ≤ 14 := by
      have : j ≤ 14 := by simp only [List.length_cons] at hlen; omega
      exact_mod_cast this
    have hcast : (((j + (((c, k) :: rest).length) : Nat)) : ℚ) = ((j + 1 + rest.length : Nat) : ℚ) := by
      simp only [List.length_cons]; congr 1; omega
    rw [hcast]
    cases c with
    | false =>
      have ih := accumulate_error rest s e (j + 1) hrest h0
        (by push_cast; linarith) (by push_cast; nlinarith [h2]) hlen'
      have hs : accumulate ((false, k) :: rest) s = accumulate rest s := rfl
      have he : exactSum ((false, k) :: rest) = exactSum rest := by
        simp [exactSum]
      rw [hs, he]
      exact ih
    | true =>
      have hround := roundDouble_error (s + k)
      have hse := abs_le.mp h2
      have hbig : (16 : ℚ) / 2 ^ 53 * j ≤ 1 := by
        have : (16 : ℚ) / 2 ^ 53 * j ≤ 16 / 2 ^ 53 * 14 := by
          apply mul_le_mul_of_nonneg_left hj; positivity
        linarith [show (16 : ℚ) / 2 ^ 53 * 14 ≤ 1 by norm_num]
      have hsk : |s + k| ≤ 16 := by
        rw [abs_le]; constructor <;> linarith [hk0.1, hk0.2]
      have hstep : |fadd s k - (e + k)| ≤ 16 / 2 ^ 53 * ((j + 1 : Nat) : ℚ) := by
        have h3 : |roundDouble (s + k) - (s + k)| ≤ 16 / 2 ^ 53 := by
          calc |roundDouble (s + k) - (s + k)| ≤ |s + k| / 2 ^ 53 := hround
            _ ≤ 16 / 2 ^ 53 := by
              apply div_le_div_of_nonneg_right hsk; positivity
        have h4 : fadd s k - (e + k) = (roundDouble (s + k) - (s + k)) + (s - e) := by
          unfold fadd; ring
        rw [h4]
        calc |roundDouble (s + k) - (s + k) + (s - e)|
            ≤ |roundDouble (s + k) - (s + k)| + |s - e| := abs_add _ _
          _ ≤ 16 / 2 ^ 53 + 16 / 2 ^ 53 * j := add_le_add h3 h2
          _ = 16 / 2 ^ 53 * ((j + 1 : Nat) : ℚ) := by push_cast; ring
      have ih := accumulate_error rest (fadd s k) (e + k) (j + 1) hrest
        (by linarith [hk0.1]) (by push_cast; linarith [hk0.2]) hstep hlen'
      have hs : accumulate ((true, k) :: rest) s = accumulate rest (fadd s k) := rfl
      have he : e + exactSum ((true, k) :: rest) = e + k + exactSum rest := by
        simp [exactSum]; ring
      rw [hs, he]
      exact ih

theorem tree4_step (b : Fin 3) (score : ℚ) :
    (if b = 2 then fadd score (lit 0.8) else if b = 1 then fadd score (lit 0.5) else score) =
      addIfDouble (decide (b = 1)) (lit 0.5) (addIfDouble (decide (b = 2)) (lit 0.8) score) := by
  fin_cases b <;> simp [addIfDouble]

theorem tree6_step (kw noHTTPS : Bool) (score : ℚ) :
    (if kw then (if noHTTPS then fadd score (lit 0.9) else fadd score (lit 0.4)) else score) =
      addIfDouble (kw && !noHTTPS) (lit 0.4) (addIfDouble (kw && noHTTPS) (lit 0.9) score) := by
  cases kw <;> cases noHTTPS <;> simp [addIfDouble]

theorem randomForestClassifierDouble_eq (f : Features) :
    randomForestClassifierDouble f =
      fdiv (accumulate (ruleStepsWith (tree4Branch f) f) (fadd 0 (tree1Double f))) 7 := by
  unfold randomForestClassifierDouble
  simp only [tree4_step, tree6_step]
  rfl

/-! ## Signs and ranges on doubles -/

theorem roundDouble_nonneg {q : ℚ} (h : 0 ≤ q) : 0 ≤ roundDouble q := by
  have he := abs_le.mp (roundDouble_error q)
  rw [abs_of_nonneg h] at he
  have : q / 2 ^ 53 ≤ q := div_le_self h (by norm_num)
  linarith [he.1]

theorem roundDouble_le {q : ℚ} (h : 0 ≤ q) : roundDouble q ≤ q + q / 2 ^ 53 := by
  have he := abs_le.mp (roundDouble_error q)
  rw [abs_of_nonneg h] at he
  linarith [he.2]

theorem addIfDouble_nonneg (c : Bool) {k score : ℚ} (hk : 0 ≤ k) (hs : 0 ≤ score) :
    0 ≤ addIfDouble c k score := by
  cases c
  · simpa [addIfDouble] using hs
  · simpa [addIfDouble, fadd] using roundDouble_nonneg (add_nonneg hs hk)

theorem foldl_addIfDouble_nonneg {α : Type} (c : α → Bool) {k : ℚ} (hk : 0 ≤ k) (l : List α) :
    ∀ score : ℚ, 0 ≤ score → 0 ≤ l.foldl (fun score a => addIfDouble (c a) k score) score := by
  induction l with
  | nil => intro score hs; simpa using hs
  | cons a l ih =>
    intro score hs
    simp only [List.foldl_cons]
    exact ih _ (addIfDouble_nonneg _ hk hs)

theorem lit_one : lit 1.0 = 1 := by
  decide!

theorem lit_nonneg :
    0 ≤ lit 0.1 ∧ 0 ≤ lit 0.2 ∧ 0 ≤ lit 0.3 ∧ 0 ≤ lit 0.4 ∧ 0 ≤ lit 0.5 ∧ 0 ≤ lit 0.6 ∧
    0 ≤ lit 0.9 := by
  decide!

theorem lstmClassifierDouble_nonneg (P : Platform) (url : JSString) :
    0 ≤ lstmClassifierDouble P url := by
  obtain ⟨h1, h2, h3, h4, h5, h6, h9⟩ := lit_nonneg
  unfold lstmClassifierDouble
  simp only []
  apply le_min (by rw [lit_one]; norm_num)
  apply foldl_addIfDouble_nonneg _ h1
  apply addIfDouble_nonneg _ h5
  apply addIfDouble_nonneg _ h3
  apply addIfDouble_nonneg _ h4
  apply addIfDouble_nonneg _ h6
  apply addIfDouble_nonneg _ h9
  apply foldl_addIfDouble_nonneg
    (fun m : JSString => decide (lit 0.7 < fdiv (m.dedup.length : ℚ) (m.length : ℚ))) h2
  exact addIfDouble_nonneg _ h3 le_rfl

theorem lstmClassifierDouble_le_one (P : Platform) (url : JSString) :
    lstmClassifierDouble P url ≤ 1 := by
  unfold lstmClassifierDouble
  simp only []
  exact le_trans (min_le_left _ _) (le_of_eq lit_one)

theorem fusionDouble_below_phishing {s p : ℚ} (h : finalScoreDouble s p < lit 0.7) :
    (fusionDouble s p).1 = Verdict.safe ∨ (fusionDouble s p).1 = Verdict.suspicious := by
  unfold fusionDouble
  simp only [ge_iff_le, if_neg (not_le.mpr h)]
  split_ifs
  · exact Or.inr rfl
  · exact Or.inl rfl

/-! ## The scenarios in double arithmetic -/

/-- The results of `analyzeURL` in double arithmetic on the inputs of scenarios B, C and D:
the verdict, confidence and riskScore are those of the exact reading. -/
theorem scenarios_on_doubles :
    ((analyzeURLDouble scenarioHost scenarioB).verdict,
      (analyzeURLDouble scenarioHost scenarioB).confidence,
      (analyzeURLDouble scenarioHost scenarioB).riskScore) = (Verdict.safe, 87, 13) ∧
    ((analyzeURLDouble scenarioHost scenarioC).verdict,
      (analyzeURLDouble scenarioHost scenarioC).confidence,
      (analyzeURLDouble scenarioHost scenarioC).riskScore) = (Verdict.safe, 86, 14) ∧
    ((analyzeURLDouble scenarioHost scenarioD).verdict,
      (analyzeURLDouble scenarioHost scenarioD).confidence,
      (analyzeURLDouble scenarioHost scenarioD).riskScore) = (Verdict.safe, 73, 27) := by
  decide!

/-! ## Fusion and verdict (C4) -/

theorem lit_thresholds : lit 0.4 < lit 0.7 := by
  decide!

/-- The scores of `http://a123.tk`, and what the fusion stage makes of them: the sum
`0.1 + 0.5 + 0.8` divided by 7 is `0.19999999999999998`, the pattern score is `0.6 + 0.1`,
the fused score is `0.39999999999999997`, below the double 0.4, and the result is `safe`
with confidence 60 and riskScore 40. -/
theorem fusionDouble_below_suspicious :
    finalScoreDouble (fdiv (fadd (fadd (fadd 0 (lit 0.1)) (lit 0.5)) (lit 0.8)) 7)
        (min (lit 1.0) (fadd (fadd 0 (lit 0.6)) (lit 0.1))) < lit 0.4 ∧
    fusionDouble (fdiv (fadd (fadd (fadd 0 (lit 0.1)) (lit 0.5)) (lit 0.8)) 7)
        (min (lit 1.0) (fadd (fadd 0 (lit 0.6)) (lit 0.1))) = (Verdict.safe, 60, 40) := by
  decide!

/-- C4: the fusion stage computes `final = 0.6*s + 0.4*p` in double arithmetic; `riskScore`
is `round(final*100)` in every case; `final >= 0.7` gives `phishing` with confidence
`min(95, round(final*100))`, `0.4 <= final < 0.7` gives `suspicious` with confidence
`round(final*100)`, `final < 0.4` gives `safe` with confidence
`min(95, round((1-final)*100))`; exactly one of the three bands holds for every pair
`(s, p)`; and `analyzeURL` reports the fusion of the two scores of its input. -/
theorem fusionDouble_three_bands (s p : ℚ) (P : Platform) (url : JSString) :
    finalScoreDouble s p = fadd (fmul (lit 0.6) s) (fmul (lit 0.4) p) ∧
    (fusionDouble s p).2.2 = jsRound (fmul (finalScoreDouble s p) 100) ∧
    (lit 0.7 ≤ finalScoreDouble s p →
      (fusionDouble s p).1 = Verdict.phishing ∧
      (fusionDouble s p).2.1 = min 95 (jsRound (fmul (finalScoreDouble s p) 100))) ∧
    (lit 0.4 ≤ finalScoreDouble s p ∧ finalScoreDouble s p < lit 0.7 →
      (fusionDouble s p).1 = Verdict.suspicious ∧
      (fusionDouble s p).2.1 = jsRound (fmul (finalScoreDouble s p) 100)) ∧
    (finalScoreDouble s p < lit 0.4 →
      (fusionDouble s p).1 = Verdict.safe ∧
      (fusionDouble s p).2.1 =
        min 95 (jsRound (fmul (fsub 1 (finalScoreDouble s p)) 100))) ∧
    ((lit 0.7 ≤ finalScoreDouble s p ∧
        ¬ (lit 0.4 ≤ finalScoreDouble s p ∧ finalScoreDouble s p < lit 0.7) ∧
        ¬ finalScoreDouble s p < lit 0.4) ∨
     (¬ lit 0.7 ≤ finalScoreDouble s p ∧
        (lit 0.4 ≤ finalScoreDouble s p ∧ finalScoreDouble s p < lit 0.7) ∧
        ¬ finalScoreDouble s p < lit 0.4) ∨
     (¬ lit 0.7 ≤ finalScoreDouble s p ∧
        ¬ (lit 0.4 ≤ finalScoreDouble s p ∧ finalScoreDouble s p < lit 0.7) ∧
        finalScoreDouble s p < lit 0.4)) ∧
    ((analyzeURLDouble P url).verdict, (analyzeURLDouble P url).confidence,
        (analyzeURLDouble P url).riskScore) =
      fusionDouble (randomForestClassifierDouble (extractFeatures P url))
        (lstmClassifierDouble P url) := by
  have h47 := lit_thresholds
  refine ⟨?_, rfl, ?_, ?_, ?_, ?_, rfl⟩
  · unfold finalScoreDouble fmul
    rw [mul_comm s, mul_comm p]
  · intro h
    unfold fusionDouble
    simp only [ge_iff_le, if_pos h, and_self]
  · intro h
    unfold fusionDouble
    simp only [ge_iff_le, if_neg (not_le.mpr h.2), if_pos h.1, and_self]
  · intro h
    have h7 : ¬ lit 0.7 ≤ finalScoreDouble s p := by
      intro h'; linarith
    unfold fusionDouble
    simp only [ge_iff_le, if_neg h7, if_neg (not_le.mpr h), and_self]
  · rcases le_or_lt (lit 0.7) (finalScoreDouble s p) with h | h
    · left
      refine ⟨h, fun h' => absurd h (not_le.mpr h'.2), fun h' => ?_⟩
      linarith
    · rcases le_or_lt (lit 0.4) (finalScoreDouble s p) with h4 | h4
      · right; left
        exact ⟨not_le.mpr h, ⟨h4, h⟩, not_lt.mpr h4⟩
      · right; right
        exact ⟨not_le.mpr h, fun h' => absurd h'.1 (not_le.mpr h4), h4⟩

/-! ## Scenario A in both readings (C2) -/

theorem featuresA_on_doubles :
    0 ≤ fmul (randomForestClassifierDouble featuresA) (lit 0.6) ∧
    fmul (randomForestClassifierDouble featuresA) (lit 0.6) ≤ 0.18 ∧
    0 ≤ lit 0.4 ∧ lit 0.4 ≤ 0.41 ∧ 0.69 ≤ lit 0.7 := by
  decide!

theorem finalScoreDouble_featuresA {p : ℚ} (h0 : 0 ≤ p) (h1 : p ≤ 1) :
    finalScoreDouble (randomForestClassifierDouble featuresA) p < lit 0.7 := by
  obtain ⟨ha0, ha1, hc0, hc1, h7⟩ := featuresA_on_doubles
  have hpc0 : 0 ≤ p * lit 0.4 := mul_nonneg h0 hc0
  have hpc1 : p * lit 0.4 ≤ 0.41 := by
    calc p * lit 0.4 ≤ 1 * lit 0.4 := mul_le_mul_of_nonneg_right h1 hc0
      _ ≤ 0.41 := by linarith
  have hb0 : 0 ≤ fmul p (lit 0.4) := roundDouble_nonneg hpc0
  have hb1 : fmul p (lit 0.4) ≤ p * lit 0.4 + p * lit 0.4 / 2 ^ 53 := roundDouble_le hpc0
  have hsmall : p * lit 0.4 / 2 ^ 53 ≤ 0.01 := by
    have : p * lit 0.4 / 2 ^ 53 ≤ p * lit 0.4 := div_le_self hpc0 (by norm_num)
    linarith
  have hsum0 : 0 ≤ fmul (randomForestClassifierDouble featuresA) (lit 0.6) + fmul p (lit 0.4) :=
    add_nonneg ha0 hb0
  have hf := roundDouble_le hsum0
  have hsum1 : fmul (randomForestClassifierDouble featuresA) (lit 0.6) + fmul p (lit 0.4) ≤ 0.6 := by
    linarith
  have hsmall2 : (fmul (randomForestClassifierDouble featuresA) (lit 0.6) + fmul p (lit 0.4))
      / 2 ^ 53 ≤ 0.01 := by
    have : (fmul (randomForestClassifierDouble featuresA) (lit 0.6) + fmul p (lit 0.4)) / 2 ^ 53 ≤
        fmul (randomForestClassifierDouble featuresA) (lit 0.6) + fmul p (lit 0.4) :=
      div_le_self hsum0 (by norm_num)
    norm_num at hsum1 ⊢
    linarith
  unfold finalScoreDouble fadd
  norm_num at hsum1 hsmall2 h7 ⊢
  linarith

/-- C2, amended: scenario A.  On every host whose `URL` constructor parses
`http://paypal-secure-login.tk/verify?id=123` into protocol `http:`, hostname
`paypal-secure-login.tk`, no port and path `/verify`, and whose `toLowerCase` leaves the
(lower-case) input and hostname unchanged, the record has `hasPhishingKeyword = 1`,
`hasBrandName = 1` and `hasHTTPS = 0`, the structural score is `2/7`, and `analyzeURL` does
not return `phishing`: whatever the pattern score in `[0, 1]`, the fused score stays below
0.7 and the verdict is `safe` or `suspicious`, in the exact reading and in double arithmetic
alike. -/
theorem scenarioA_not_phishing (P : Platform) (hURL : P.URL scenarioA = some urlObjA)
    (hlow : P.toLowerCase scenarioA = scenarioA)
    (hhost : P.toLowerCase urlObjA.hostname = urlObjA.hostname) :
    (analyzeURL P scenarioA).features.hasPhishingKeyword = some 1 ∧
    (analyzeURL P scenarioA).features.hasBrandName = some 1 ∧
    (analyzeURL P scenarioA).features.hasHTTPS = some 0 ∧
    randomForestClassifier (extractFeatures P scenarioA) = 2 / 7 ∧
    (analyzeURL P scenarioA).verdict ≠ Verdict.phishing ∧
    ((analyzeURL P scenarioA).verdict = Verdict.safe ∨
      (analyzeURL P scenarioA).verdict = Verdict.suspicious) ∧
    (analyzeURLDouble P scenarioA).verdict ≠ Verdict.phishing ∧
    ((analyzeURLDouble P scenarioA).verdict = Verdict.safe ∨
      (analyzeURLDouble P scenarioA).verdict = Verdict.suspicious) := by
  have hf : extractFeatures P scenarioA = featuresA := extractFeatures_scenarioA hURL hlow hhost
  have hs : randomForestClassifier (extractFeatures P scenarioA) = 2 / 7 := by
    rw [hf, randomForestClassifier_featuresA]
  have hv : (analyzeURL P scenarioA).verdict = Verdict.safe ∨
      (analyzeURL P scenarioA).verdict = Verdict.suspicious := by
    show (fusion _ _).1 = _ ∨ (fusion _ _).1 = _
    rw [hs]
    exact fusion_below_phishing (finalScore_featuresA (lstmClassifier_le_one _ _))
  have hvd : (analyzeURLDouble P scenarioA).verdict = Verdict.safe ∨
      (analyzeURLDouble P scenarioA).verdict = Verdict.suspicious := by
    show (fusionDouble _ _).1 = _ ∨ (fusionDouble _ _).1 = _
    rw [hf]
    exact fusionDouble_below_phishing
      (finalScoreDouble_featuresA (lstmClassifierDouble_nonneg _ _)
        (lstmClassifierDouble_le_one _ _))
  have hfe : (analyzeURL P scenarioA).features = featuresA := hf
  refine ⟨by rw [hfe]; rfl, by rw [hfe]; rfl, by rw [hfe]; rfl, hs, ?_, hv, ?_, hvd⟩
  · rcases hv with hv | hv <;> rw [hv] <;> decide
  · rcases hvd with hvd | hvd <;> rw [hvd] <;> decide

/-- The hypotheses of `scenarioA_not_phishing` hold of `scenarioHost`. -/
theorem scenarioA_not_phishing_witness :
    scenarioHost.URL scenarioA = some urlObjA ∧
    scenarioHost.toLowerCase scenarioA = scenarioA ∧
    scenarioHost.toLowerCase urlObjA.hostname = urlObjA.hostname ∧
    (analyzeURL scenarioHost scenarioA).verdict ≠ Verdict.phishing ∧
    (analyzeURLDouble scenarioHost scenarioA).verdict ≠ Verdict.phishing :=
  ⟨by decide, by decide, by decide,
    (scenarioA_not_phishing scenarioHost (by decide) (by decide) (by decide)).2.2.2.2.1,
    (scenarioA_not_phishing scenarioHost (by decide) (by decide) (by decide)).2.2.2.2.2.2.1⟩

/-! ## The length tiers of tree 1 (C10) -/

theorem lit_tiers_distinct : lit 0.7 ≠ lit 0.4 ∧ lit 0.7 ≠ lit 0.1 ∧ lit 0.4 ≠ lit 0.1 := by
  decide!

theorem lit_tier_gap : |lit 0.7 - lit 0.4 - 0.3| ≤ 1 / 2 ^ 53 := by
  decide!

theorem tree1Double_of_length (f : Features) (n : Nat) (h : f.urlLength = some n) :
    tree1Double f = if 75 < n then lit 0.7 else if 50 < n then lit 0.4 else lit 0.1 := by
  simp [tree1Double, gt, h]

theorem ruleSteps_bounds (b : Fin 3) (f : Features) :
    ∀ ck ∈ ruleStepsWith b f, 0 ≤ ck.2 ∧ ck.2 ≤ 1 := by
  obtain ⟨-, h4, h5, h6, h7, h8, h9, h10⟩ := lit_bounds
  intro ck hck
  simp only [ruleStepsWith, List.mem_cons, List.mem_singleton, List.not_mem_nil, or_false] at hck
  rcases hck with h | h | h | h | h | h | h | h | h | h | h | h | h | h <;> rw [h] <;>
    assumption

theorem randomForestClassifierDouble_near (f : Features) (t : ℚ) (ht : tree1Double f = t)
    (ht0 : 0 ≤ t) (ht1 : t ≤ 1) :
    |randomForestClassifierDouble f - (t + exactSum (ruleStepsWith (tree4Branch f) f)) / 7| ≤
      256 / 7 / 2 ^ 53 := by
  rw [randomForestClassifierDouble_eq, ht]
  have hstart : |fadd 0 t - t| ≤ 16 / 2 ^ 53 * ((1 : Nat) : ℚ) := by
    have h := roundDouble_error (0 + t)
    rw [zero_add, abs_of_nonneg ht0] at h
    unfold fadd
    rw [zero_add]
    calc |roundDouble t - t| ≤ t / 2 ^ 53 := h
      _ ≤ 16 / 2 ^ 53 * ((1 : Nat) : ℚ) := by
        rw [Nat.cast_one, mul_one]
        apply div_le_div_of_nonneg_right (by linarith); positivity
  obtain ⟨hacc, hlo, hhi⟩ := accumulate_error (ruleStepsWith (tree4Branch f) f) (fadd 0 t) t 1
    (ruleSteps_bounds _ f) ht0 (by simpa using ht1) hstart (by simp [ruleStepsWith])
  have hlen : ((1 + (ruleStepsWith (tree4Branch f) f).length : Nat) : ℚ) = 15 := by
    simp [ruleStepsWith]
  rw [hlen] at hacc hhi
  set S := accumulate (ruleStepsWith (tree4Branch f) f) (fadd 0 t) with hS
  set E := t + exactSum (ruleStepsWith (tree4Branch f) f) with hE
  have hSE := abs_le.mp hacc
  have hu : (16 : ℚ) / 2 ^ 53 * 15 ≤ 1 := by norm_num
  have hSabs : |S / 7| ≤ 16 / 7 := by
    rw [abs_le]; constructor <;> linarith
  have hdiv := roundDouble_error (S / 7)
  have hdiv' : |roundDouble (S / 7) - S / 7| ≤ 16 / 7 / 2 ^ 53 := by
    calc |roundDouble (S / 7) - S / 7| ≤ |S / 7| / 2 ^ 53 := hdiv
      _ ≤ 16 / 7 / 2 ^ 53 := by
        apply div_le_div_of_nonneg_right hSabs; positivity
  have hsplit : fdiv S 7 - E / 7 = (roundDouble (S / 7) - S / 7) + (S - E) / 7 := by
    unfold fdiv; ring
  rw [hsplit]
  calc |roundDouble (S / 7) - S / 7 + (S - E) / 7|
      ≤ |roundDouble (S / 7) - S / 7| + |(S - E) / 7| := abs_add _ _
    _ ≤ 16 / 7 / 2 ^ 53 + 16 / 2 ^ 53 * 15 / 7 := by
        apply add_le_add hdiv'
        rw [abs_div, abs_of_pos (by norm_num : (0 : ℚ) < 7)]
        apply div_le_div_of_nonneg_right hacc; norm_num
    _ = 256 / 7 / 2 ^ 53 := by norm_num

/-- The records `length75Record` and `length76Record` are those of `length75URL` and
`length76URL` on a host that parses them as a browser does. -/
theorem extractFeatures_length75_76 {P : Platform}
    (h75 : P.URL length75URL = some urlObjExample) (h76 : P.URL length76URL = some urlObjExample)
    (hlow75 : P.toLowerCase length75URL = length75URL)
    (hlow76 : P.toLowerCase length76URL = length76URL)
    (hhost : P.toLowerCase urlObjExample.hostname = urlObjExample.hostname) :
    extractFeatures P length75URL = length75Record ∧
    extractFeatures P length76URL = length76Record := by
  constructor
  · unfold extractFeatures
    rw [show withScheme length75URL = length75URL from by decide, h75]
    simp only [hlow75, hhost]
    decide
  · unfold extractFeatures
    rw [show withScheme length76URL = length76URL from by decide, h76]
    simp only [hlow76, hhost]
    decide

/-- C10, counterexample: the two records differ only in `urlLength`, 75 and 76, tree 4 takes
the same branch on both, and their structural scores in the code's double arithmetic,
`0.05714285714285715` and `0.09999999999999999`, do not differ by `0.3/7`, neither as real
numbers nor after the rounded subtraction. -/
theorem score_gap_counterexample :
    length75Record.urlLength = some 75 ∧
    length76Record = { length75Record with urlLength := some 76 } ∧
    tree4Branch length76Record = tree4Branch length75Record ∧
    randomForestClassifierDouble length76Record - randomForestClassifierDouble length75Record
      ≠ 0.3 / 7 ∧
    fsub (randomForestClassifierDouble length76Record)
      (randomForestClassifierDouble length75Record) ≠ fdiv (lit 0.3) 7 := by
  decide!

/-- C10, amended: tree 1 selects its tier with strict `>`: it adds the double 0.7 exactly
when `urlLength > 75`, the double 0.4 exactly when `50 < urlLength <= 75`, and the double
0.1 otherwise (an absent `urlLength` included).  For two records that differ only in
`urlLength`, 75 in `f` and 76 in `g`, and on which tree 4 takes the same branch, tree 1 adds
0.4 to `f` and 0.7 to `g`, the structural score of `g` in the code's double arithmetic is
strictly larger than that of `f`, and the two scores differ by `0.3/7` up to rounding: the
difference is within `10^-14` of `0.3/7`. -/
theorem length_tiers_on_doubles (f g : Features) :
    (tree1Double f = lit 0.7 ↔ ∃ n, f.urlLength = some n ∧ 75 < n) ∧
    (tree1Double f = lit 0.4 ↔ ∃ n, f.urlLength = some n ∧ 50 < n ∧ n ≤ 75) ∧
    (tree1Double f = lit 0.1 ↔ ¬ ∃ n, f.urlLength = some n ∧ 50 < n) ∧
    (f.urlLength = some 75 → g = { f with urlLength := some 76 } →
      tree4Branch g = tree4Branch f →
      tree1Double f = lit 0.4 ∧ tree1Double g = lit 0.7 ∧
      randomForestClassifierDouble f < randomForestClassifierDouble g ∧
      |randomForestClassifierDouble g - randomForestClassifierDouble f - 0.3 / 7| <
        1 / 10 ^ 14) := by
  obtain ⟨h74, h71, h41⟩ := lit_tiers_distinct
  refine ⟨?_, ?_, ?_, ?_⟩
  · cases h : f.urlLength with
    | none => simpa [tree1Double, gt, h] using h71.symm
    | some n =>
      rw [tree1Double_of_length f n h]
      by_cases h75 : 75 < n
      · simp [h75]
      · by_cases h50 : 50 < n
        · simpa [h75, h50] using h74.symm
        · simpa [h75, h50] using h71.symm
  · cases h : f.urlLength with
    | none => simpa [tree1Double, gt, h] using h41.symm
    | some n =>
      rw [tree1Double_of_length f n h]
      by_cases h75 : 75 < n
      · have : ¬ n ≤ 75 := by omega
        simpa [h75, this] using h74
      · by_cases h50 : 50 < n
        · have : n ≤ 75 := by omega
          simp [h75, h50, this]
        · simpa [h75, h50] using h41.symm
  · cases h : f.urlLength with
    | none => simp [tree1Double, gt, h]
    | some n =>
      rw [tree1Double_of_length f n h]
      by_cases h75 : 75 < n
      · have : 50 < n := by omega
        simpa [h75, this] using h71
      · by_cases h50 : 50 < n
        · simpa [h75, h50] using h41
        · simp [h75, h50]
  · intro hf hg h4
    obtain ⟨-, ⟨h40, h41'⟩, -, -, ⟨h70, h71'⟩, -⟩ := lit_bounds
    have h1f : tree1Double f = lit 0.4 := by rw [tree1Double_of_length f 75 hf]; simp
    have h1g : tree1Double g = lit 0.7 := by
      rw [tree1Double_of_length g 76 (by rw [hg])]; simp
    have hsteps : ruleStepsWith (tree4Branch g) g = ruleStepsWith (tree4Branch f) f := by
      rw [h4, hg]; rfl
    have hnf := randomForestClassifierDouble_near f (lit 0.4) h1f h40 h41'
    have hng := randomForestClassifierDouble_near g (lit 0.7) h1g h70 h71'
    rw [hsteps] at hng
    have hgap := abs_le.mp lit_tier_gap
    have hnf' := abs_le.mp hnf
    have hng' := abs_le.mp hng
    have hu : (1 : ℚ) / 2 ^ 53 < 12 / 10 ^ 17 := by norm_num
    have hu0 : (0 : ℚ) < 1 / 2 ^ 53 := by positivity
    have e1 : (256 : ℚ) / 7 / 2 ^ 53 = 256 / 7 * (1 / 2 ^ 53) := by ring
    rw [e1] at hnf' hng'
    set u : ℚ := 1 / 2 ^ 53 with hudef
    set R := exactSum (ruleStepsWith (tree4Branch f) f) with hR
    have hclose : |randomForestClassifierDouble g - randomForestClassifierDouble f - 0.3 / 7| <
        1 / 10 ^ 14 := by
      rw [abs_lt]
      constructor <;> norm_num at hu ⊢ <;> linarith [hnf'.1, hnf'.2, hng'.1, hng'.2, hgap.1, hgap.2]
    refine ⟨h1f, h1g, ?_, hclose⟩
    have := (abs_lt.mp hclose).1
    norm_num at this
    linarith

/-- The hypotheses of `length_tiers_on_doubles` hold of the records of a 75-character and a
76-character URL. -/
theorem length_tiers_on_doubles_witness :
    length75Record.urlLength = some 75 ∧
    tree4Branch length76Record = tree4Branch length75Record ∧
    tree1Double length75Record = lit 0.4 ∧ tree1Double length76Record = lit 0.7 ∧
    randomForestClassifierDouble length75Record < randomForestClassifierDouble length76Record :=
  ⟨rfl, by decide!,
    ((length_tiers_on_doubles length75Record length76Record).2.2.2 rfl rfl (by decide!)).1,
    ((length_tiers_on_doubles length75Record length76Record).2.2.2 rfl rfl (by decide!)).2.1,
    ((length_tiers_on_doubles length75Record length76Record).2.2.2 rfl rfl (by decide!)).2.2.1⟩

/-! ## The other results in double arithmetic -/

/-- The structural scores of the record `{invalidURL: 1}` and of `allRulesRecord` in double
arithmetic are the doubles that the expressions `1.6/7` and `8.7/7` evaluate to, and the fusion of the latter with
the pattern score 1 is `phishing` with confidence 95 and riskScore 115. -/
theorem records_on_doubles :
    randomForestClassifierDouble invalidRecord = fdiv (lit 1.6) 7 ∧
    randomForestClassifierDouble allRulesRecord = fdiv (lit 8.7) 7 ∧
    fusionDouble (randomForestClassifierDouble allRulesRecord) 1 = (Verdict.phishing, 95, 115) := by
  decide!

theorem accumulate_nonneg : ∀ (steps : List (Bool × ℚ)) (score : ℚ),
    (∀ ck ∈ steps, 0 ≤ ck.2 ∧ ck.2 ≤ 1) → 0 ≤ score → 0 ≤ accumulate steps score
  | [], score, _, h => by simpa [accumulate] using h
  | (c, k) :: rest, score, hk, h => by
    have hk0 := hk (c, k) (List.mem_cons_self _ _)
    have hrest : ∀ ck ∈ rest, 0 ≤ ck.2 ∧ ck.2 ≤ 1 := fun ck h => hk ck (List.mem_cons_of_mem _ h)
    have hs : accumulate ((c, k) :: rest) score = accumulate rest (addIfDouble c k score) := rfl
    rw [hs]
    exact accumulate_nonneg rest _ hrest (addIfDouble_nonneg c hk0.1 h)

theorem tree1Double_bounds (f : Features) : 0 ≤ tree1Double f ∧ tree1Double f ≤ 1 := by
  obtain ⟨h1, h4, -, -, h7, -⟩ := lit_bounds
  unfold tree1Double
  split_ifs <;> assumption

theorem randomForestClassifierDouble_nonneg (f : Features) :
    0 ≤ randomForestClassifierDouble f := by
  rw [randomForestClassifierDouble_eq]
  have h0 : 0 ≤ fadd 0 (tree1Double f) := by
    unfold fadd
    exact roundDouble_nonneg (by linarith [(tree1Double_bounds f).1])
  have hS := accumulate_nonneg _ _ (ruleSteps_bounds (tree4Branch f) f) h0
  unfold fdiv
  exact roundDouble_nonneg (div_nonneg hS (by norm_num))

theorem finalScoreDouble_nonneg {s p : ℚ} (hs : 0 ≤ s) (hp : 0 ≤ p) :
    0 ≤ finalScoreDouble s p := by
  obtain ⟨-, -, -, h4, -, h6, -⟩ := lit_nonneg
  unfold finalScoreDouble fadd fmul
  exact roundDouble_nonneg
    (add_nonneg (roundDouble_nonneg (mul_nonneg hs h6)) (roundDouble_nonneg (mul_nonneg hp h4)))

theorem lit_threshold_values : 0 ≤ lit 0.4 ∧ lit 0.4 ≤ 1 ∧ 0 ≤ lit 0.7 ∧ lit 0.7 ≤ 0.7 := by
  decide!

/-- The range of the result in double arithmetic: for every host and input the confidence
lies between 0 and 95 and the riskScore is not negative. -/
theorem doubles_result_range (P : Platform) (url : JSString) :
    0 ≤ (analyzeURLDouble P url).confidence ∧ (analyzeURLDouble P url).confidence ≤ 95 ∧
    0 ≤ (analyzeURLDouble P url).riskScore := by
  obtain ⟨h40, h41, h70, h71⟩ := lit_threshold_values
  have hF := finalScoreDouble_nonneg (randomForestClassifierDouble_nonneg (extractFeatures P url))
    (lstmClassifierDouble_nonneg P url)
  show 0 ≤ (fusionDouble _ _).2.1 ∧ (fusionDouble _ _).2.1 ≤ 95 ∧ 0 ≤ (fusionDouble _ _).2.2
  set F := finalScoreDouble (randomForestClassifierDouble (extractFeatures P url))
    (lstmClassifierDouble P url) with hFdef
  have hrisk : 0 ≤ fmul F 100 := roundDouble_nonneg (mul_nonneg hF (by norm_num))
  unfold fusionDouble
  simp only [← hFdef, ge_iff_le]
  refine ⟨?_, ?_, jsRound_nonneg hrisk⟩
  · split_ifs with h7 h4
    · exact le_min (by norm_num) (jsRound_nonneg hrisk)
    · exact jsRound_nonneg hrisk
    · have h1 : 0 ≤ 1 - F := by linarith [not_le.mp h4]
      exact le_min (by norm_num)
        (jsRound_nonneg (roundDouble_nonneg (mul_nonneg (roundDouble_nonneg h1) (by norm_num))))
  · split_ifs with h7 h4
    · exact min_le_left _ _
    · have hlt : F < 0.7 := by linarith [not_le.mp h7]
      have hx0 : 0 ≤ F * 100 := mul_nonneg hF (by norm_num)
      have hle := roundDouble_le hx0
      have hsmall : F * 100 / 2 ^ 53 ≤ 1 := by
        have : F * 100 / 2 ^ 53 ≤ 70 / 2 ^ 53 := by
          apply div_le_div_of_nonneg_right _ (by positivity)
          norm_num at hlt ⊢; linarith
        linarith [show (70 : ℚ) / 2 ^ 53 ≤ 1 by norm_num]
      apply jsRound_le_of_half
      unfold fmul
      norm_num at hlt ⊢
      linarith
    · exact min_le_left _ _

theorem invalidRecord_on_doubles :
    0.13 ≤ fmul (randomForestClassifierDouble invalidRecord) (lit 0.6) ∧
    fmul (randomForestClassifierDouble invalidRecord) (lit 0.6) ≤ 0.1372 ∧
    0 ≤ lit 0.4 ∧ lit 0.4 ≤ 0.4001 ∧ 0.69 ≤ lit 0.7 := by
  decide!

/-- Unparseable input in double arithmetic: for every host and every input on which the
`URL` constructor throws, the verdict is not `phishing` and the riskScore lies between 13
and 54. -/
theorem doubles_unparseable_verdict (P : Platform) (url : JSString)
    (h : P.URL (withScheme url) = none) :
    (analyzeURLDouble P url).verdict ≠ Verdict.phishing ∧
    13 ≤ (analyzeURLDouble P url).riskScore ∧ (analyzeURLDouble P url).riskScore ≤ 54 := by
  obtain ⟨ha0, ha1, hc0, hc1, h7⟩ := invalidRecord_on_doubles
  have hp0 := lstmClassifierDouble_nonneg P url
  have hp1 := lstmClassifierDouble_le_one P url
  show (fusionDouble _ _).1 ≠ _ ∧ 13 ≤ (fusionDouble _ _).2.2 ∧ (fusionDouble _ _).2.2 ≤ 54
  rw [extractFeatures_of_throw h]
  set p := lstmClassifierDouble P url with hp
  set A := fmul (randomForestClassifierDouble invalidRecord) (lit 0.6) with hA
  have hpc0 : 0 ≤ p * lit 0.4 := mul_nonneg hp0 hc0
  have hpc1 : p * lit 0.4 ≤ 0.4001 := by
    calc p * lit 0.4 ≤ 1 * lit 0.4 := mul_le_mul_of_nonneg_right hp1 hc0
      _ ≤ 0.4001 := by linarith
  have hb0 : 0 ≤ fmul p (lit 0.4) := roundDouble_nonneg hpc0
  have hb1 : fmul p (lit 0.4) ≤ p * lit 0.4 + p * lit 0.4 / 2 ^ 53 := roundDouble_le hpc0
  have hu : (1 : ℚ) / 2 ^ 53 ≤ 1 / 10 ^ 15 := by norm_num
  have hsmall : p * lit 0.4 / 2 ^ 53 ≤ 0.0001 := by
    have : p * lit 0.4 / 2 ^ 53 = p * lit 0.4 * (1 / 2 ^ 53) := by ring
    rw [this]
    calc p * lit 0.4 * (1 / 2 ^ 53) ≤ 0.4001 * (1 / 10 ^ 15) :=
          mul_le_mul hpc1 hu (by positivity) (by norm_num)
      _ ≤ 0.0001 := by norm_num
  have hsum0 : 0 ≤ A + fmul p (lit 0.4) := by linarith
  have hsumlo : 0.13 ≤ A + fmul p (lit 0.4) := by linarith
  have hsumhi : A + fmul p (lit 0.4) ≤ 0.5374 := by norm_num at *; linarith
  have hF : finalScoreDouble (randomForestClassifierDouble invalidRecord) p =
      roundDouble (A + fmul p (lit 0.4)) := rfl
  have herr := abs_le.mp (roundDouble_error (A + fmul p (lit 0.4)))
  rw [abs_of_nonneg hsum0] at herr
  have herrsmall : (A + fmul p (lit 0.4)) / 2 ^ 53 ≤ 0.0001 := by
    have : (A + fmul p (lit 0.4)) / 2 ^ 53 = (A + fmul p (lit 0.4)) * (1 / 2 ^ 53) := by ring
    rw [this]
    calc (A + fmul p (lit 0.4)) * (1 / 2 ^ 53) ≤ 0.5374 * (1 / 10 ^ 15) :=
          mul_le_mul hsumhi hu (by positivity) (by norm_num)
      _ ≤ 0.0001 := by norm_num
  set F := finalScoreDouble (randomForestClassifierDouble invalidRecord) p with hFdef
  have hFlo : 0.1299 ≤ F := by rw [hF]; norm_num at *; linarith [herr.1]
  have hFhi : F ≤ 0.5375 := by rw [hF]; norm_num at *; linarith [herr.2]
  have hlt : F < lit 0.7 := by norm_num at *; linarith
  have hv := fusionDouble_below_phishing hlt
  have hx0 : 0 ≤ F * 100 := by norm_num at *; linarith
  have herr2 := abs_le.mp (roundDouble_error (F * 100))
  rw [abs_of_nonneg hx0] at herr2
  have herr2small : F * 100 / 2 ^ 53 ≤ 0.0001 := by
    have : F * 100 / 2 ^ 53 = F * 100 * (1 / 2 ^ 53) := by ring
    rw [this]
    calc F * 100 * (1 / 2 ^ 53) ≤ 53.75 * (1 / 10 ^ 15) :=
          mul_le_mul (by norm_num at *; linarith) hu (by positivity) (by norm_num)
      _ ≤ 0.0001 := by norm_num
  have hrisk : (fusionDouble (randomForestClassifierDouble invalidRecord) p).2.2 =
      jsRound (roundDouble (F * 100)) := rfl
  refine ⟨?_, ?_, ?_⟩
  · rcases hv with hv | hv <;> rw [hv] <;> decide
  · rw [hrisk]
    apply jsRound_ge_of_half
    norm_num at *
    linarith [herr2.1]
  · rw [hrisk]
    apply jsRound_le_of_half
    norm_num at *
    linarith [herr2.2]

end PhishGuard
